import Mathlib

/-!
# mercuryTrade: the trading manager (`src/core/memory/mercTradingManager.cpp`)

A shallow embedding of `tradingManager` and the properties of its transaction
protocol, order intake, lifecycle state machine and latency metrics.

Modelling conventions

* A call of a member function by thread `T` is one atomic step
  `tradingManager → result × tradingManager`; the calling thread
  (`std::this_thread::get_id()`) is an explicit argument.
* The three pool allocators are external collaborators. Their state is the
  history of the calls made to them (`tradingManager.calls`); what they answer
  is given by a `Pools` record of functions of that history, so every
  deterministic allocator is covered. Each call is appended to the history
  together with its answer.
* Clock readings are explicit arguments: a latency is the integer that
  `duration_cast<microseconds>(...).count()` yields.
* `double` values are rationals (exact arithmetic).
* The counters are `std::size_t`-like counters whose declaration is in the
  header; they are natural numbers here.
* Concurrent calls are treated for the atomic `m_max_latency` only: the threads
  inside `updateMetrics` step through its atomic operations under an arbitrary
  schedule (`runSchedule`).
-/

namespace mercuryTrade

/-! ## Data model -/

/-- Address of a pool node or buffer; `0` is the null pointer. -/
abbrev Ptr := Nat

/-- The null pointer. -/
def nullptr : Ptr := 0

/-- Value of `std::this_thread::get_id()`. -/
abbrev ThreadId := Nat

/-- The enumeration `tradingManager::Status`. -/
inductive Status where
  | STARTING
  | RUNNING
  | PAUSED
  | STOPPING
deriving DecidableEq, Repr

/-- The enumeration `transactionAllocator::transactionStatus`, read by the manager through `txNode->status`. -/
inductive transactionStatus where
  | PENDING
  | COMMITTED
  | ROLLED_BACK
deriving DecidableEq, Repr

/-- The fields of `tradingManager::Config` that the manager reads. -/
structure Config where
  max_orders : Nat
  max_symbols : Nat
  enable_transactions : Bool
deriving DecidableEq, Repr

/-- An `order` as received by `submitOrder`. -/
structure order where
  order_id : String
  symbol : String
  price : ℚ
  quantity : ℚ
deriving DecidableEq

/-- A `marketData` event as received by `handleMarketData`. -/
structure marketData where
  symbol : String
deriving DecidableEq

/-- The record behind `m_metrics` (the `last_update` time stamp is left out). The
`unique_ptr` is set by the constructor and released only by the destructor, so a
live manager always holds the record. -/
structure performanceMetrics where
  order_count : Nat
  trade_count : Nat
  avg_latency : ℚ
deriving DecidableEq

/-- The identity `"TX_" + to_string(pending) + "_" + to_string(hash(thread_id))`
that `beginTransaction` registers a node under, kept as its two components. -/
structure TransactionId where
  pending : Nat
  thread : ThreadId
deriving DecidableEq, Repr

/-- One call made by the manager to one of its allocators, with the answer it got. -/
inductive PoolCall where
  /-- A call `m_transaction_allocator.beginTransaction()` and the node returned. -/
  | beginTransaction (node : Ptr)
  /-- A call `m_transaction_allocator.registerTransaction(id, node)`. -/
  | registerTransaction (id : TransactionId) (node : Ptr)
  /-- A call `m_transaction_allocator.commitTransaction(node)` and its result. -/
  | commitTransaction (node : Ptr) (success : Bool)
  /-- A call `m_transaction_allocator.rollbackTransaction(node)` and its result. -/
  | rollbackTransaction (node : Ptr) (success : Bool)
  /-- A call `m_transaction_allocator.endTransaction(node)`. -/
  | endTransaction (node : Ptr)
  /-- A call `m_order_allocator.allocateOrder()` and the node returned. -/
  | allocateOrder (node : Ptr)
  /-- The stores `order_node->price = ...; order_node->quantity = ...`. -/
  | writeOrder (node : Ptr) (price quantity : ℚ)
  /-- A call `m_order_allocator.registerOrder(id, node)`; `threw` tells whether it raised. -/
  | registerOrder (id : String) (node : Ptr) (threw : Bool)
  /-- A call `m_order_allocator.deallocateOrder(node)`. -/
  | deallocateOrder (node : Ptr)
  /-- A call `m_order_allocator.reset()`. -/
  | resetOrders
  /-- A call `m_market_data_allocator.allocateQuoteBuffer()` and the buffer returned. -/
  | allocateQuoteBuffer (buffer : Ptr)
  /-- A call `m_market_data_allocator.deallocateBuffer(buffer, size)`. -/
  | deallocateBuffer (buffer : Ptr) (size : Nat)
deriving DecidableEq

/-- The behaviour of the three allocators: each answer is a function of the calls
made so far. `registerOrderThrows` tells whether `registerOrder` raises a
`std::exception`; the other calls answer through their return value. -/
structure Pools where
  beginTransaction : List PoolCall → Ptr
  commitTransaction : List PoolCall → Ptr → Bool
  rollbackTransaction : List PoolCall → Ptr → Bool
  /-- The value of `node->status`. -/
  status : List PoolCall → Ptr → transactionStatus
  allocateOrder : List PoolCall → Ptr
  registerOrderThrows : List PoolCall → String → Ptr → Bool
  allocateQuoteBuffer : List PoolCall → Ptr
  orderHasCapacity : List PoolCall → Bool
  marketDataHasCapacity : List PoolCall → Bool
  transactionHasCapacity : List PoolCall → Bool
  /-- The fields `getConfig().quote_size` of the market-data allocator. -/
  quote_size : Nat
  /-- The fields `getConfig().buffer_capacity` of the market-data allocator. -/
  buffer_capacity : Nat

/-- The map `m_thread_transactions`: at most one entry for a thread. -/
abbrev ThreadTransactions := List (ThreadId × Ptr)

/-- The call `m_thread_transactions.find(thread_id)`: the node of the entry, if there is one. -/
def ThreadTransactions.find (m : ThreadTransactions) (T : ThreadId) : Option Ptr :=
  match m with
  | [] => none
  | (U, node) :: rest => if U = T then some node else ThreadTransactions.find rest T

/-- The call `m_thread_transactions.erase(it)` for the entry of `T`. -/
def ThreadTransactions.erase (m : ThreadTransactions) (T : ThreadId) : ThreadTransactions :=
  m.filter (fun e => decide (e.1 ≠ T))

/-- The assignment `m_thread_transactions[thread_id] = node`. -/
def ThreadTransactions.assign (m : ThreadTransactions) (T : ThreadId) (node : Ptr) :
    ThreadTransactions :=
  (T, node) :: ThreadTransactions.erase m T

/-- The members of `tradingManager`, with the allocators represented by the history
of the calls made to them. -/
structure tradingManager where
  m_config : Config
  m_status : Status
  m_metrics : performanceMetrics
  m_thread_transactions : ThreadTransactions
  m_active_orders : Nat
  m_pending_transactions : Nat
  m_total_trades : Nat
  m_total_latency : ℚ
  m_max_latency : ℚ
  calls : List PoolCall
deriving DecidableEq

/-- Append one allocator call to the history. -/
def tradingManager.call (s : tradingManager) (c : PoolCall) : tradingManager :=
  { s with calls := s.calls ++ [c] }

/-! ## Lifecycle -/

/-- The member function `tradingManager::start` (lines 346-352). -/
def start (s : tradingManager) : Bool × tradingManager :=
  if s.m_status ≠ Status.STARTING ∧ s.m_status ≠ Status.PAUSED then (false, s)
  else (true, { s with m_status := Status.RUNNING })

/-- The member function `tradingManager::pause` (lines 376-382). -/
def pause (s : tradingManager) : Bool × tradingManager :=
  if s.m_status ≠ Status.RUNNING then (false, s)
  else (true, { s with m_status := Status.PAUSED })

/-- The member function `tradingManager::resume` (lines 384-390). -/
def resume (s : tradingManager) : Bool × tradingManager :=
  if s.m_status ≠ Status.PAUSED then (false, s)
  else (true, { s with m_status := Status.RUNNING })

/-! ## Transactions -/

/-- The member function `tradingManager::beginTransaction` (lines 61-98), called by thread `T`. -/
def beginTransaction (P : Pools) (T : ThreadId) (s : tradingManager) : Bool × tradingManager :=
  if s.m_status ≠ Status.RUNNING then (false, s)
  else if (s.m_thread_transactions.find T).isSome then (false, s)
  else
    let transaction := P.beginTransaction s.calls
    let s1 := s.call (PoolCall.beginTransaction transaction)
    if transaction = nullptr then (false, s1)
    else
      let transaction_id : TransactionId := ⟨s1.m_pending_transactions, T⟩
      let s2 := s1.call (PoolCall.registerTransaction transaction_id transaction)
      let s3 := { s2 with m_thread_transactions := s2.m_thread_transactions.assign T transaction }
      (true, { s3 with m_pending_transactions := s3.m_pending_transactions + 1 })

/-- The guarded decrement `if (m_pending_transactions > 0) m_pending_transactions--`. -/
def decrementPending (s : tradingManager) : tradingManager :=
  if s.m_pending_transactions > 0 then
    { s with m_pending_transactions := s.m_pending_transactions - 1 }
  else s

/-- The member function `tradingManager::commitTransaction` (lines 100-132), called by thread `T`. -/
def commitTransaction (P : Pools) (T : ThreadId) (s : tradingManager) : Bool × tradingManager :=
  match s.m_thread_transactions.find T with
  | none => (false, s)
  | some txNode =>
    let s1 := { s with m_thread_transactions := s.m_thread_transactions.erase T }
    if txNode = nullptr ∨ P.status s1.calls txNode ≠ transactionStatus.PENDING then (false, s1)
    else
      let success := P.commitTransaction s1.calls txNode
      let s2 := s1.call (PoolCall.commitTransaction txNode success)
      if success then (true, decrementPending (s2.call (PoolCall.endTransaction txNode)))
      else (false, s2)

/-- The member function `tradingManager::rollbackTransaction` (lines 134-167), called by thread `T`. -/
def rollbackTransaction (P : Pools) (T : ThreadId) (s : tradingManager) : Bool × tradingManager :=
  let found : Ptr × tradingManager :=
    match s.m_thread_transactions.find T with
    | some node => (node, { s with m_thread_transactions := s.m_thread_transactions.erase T })
    | none => (nullptr, s)
  let txNode := found.1
  let s1 := found.2
  if txNode = nullptr then (false, s1)
  else
    let success := P.rollbackTransaction s1.calls txNode
    let s2 := s1.call (PoolCall.rollbackTransaction txNode success)
    if success then (true, decrementPending (s2.call (PoolCall.endTransaction txNode)))
    else (false, s2)

/-! ## Metrics -/

/-- Number of iterations the retry loop of `updateMetrics` still has to make. -/
def casMeasure (latency current_max m_max_latency : ℚ) : Nat :=
  if latency > current_max then
    if m_max_latency = current_max then 2 else if m_max_latency = latency then 1 else 3
  else 0

/-- The loop `while (latency > current_max) m_max_latency.compare_exchange_weak(current_max, latency)`
of `updateMetrics` (lines 433-435), run with no other writer and an exchange that
succeeds whenever the expected value matches: a successful exchange stores `latency`
and leaves `current_max` as it is, a failed one loads the stored value into
`current_max`. Returns the final `m_max_latency` and the number of exchanges attempted
(`attempts` counts those made so far). -/
def casLoop (latency current_max m_max_latency : ℚ) (attempts : Nat) : ℚ × Nat :=
  if latency > current_max then
    if m_max_latency = current_max then
      casLoop latency current_max latency (attempts + 1)
    else
      casLoop latency m_max_latency m_max_latency (attempts + 1)
  else (m_max_latency, attempts)
termination_by casMeasure latency current_max m_max_latency
decreasing_by
  all_goals simp only [casMeasure]
  · split_ifs <;> first | omega | (exfalso; linarith)
  · split_ifs <;> first | omega | (exfalso; linarith)

/-- The member function `tradingManager::updateMetrics` (lines 426-438). The metrics record is always
present, so the guard `if (!m_metrics) return` is never taken. -/
def updateMetrics (latency : ℚ) (s : tradingManager) : tradingManager :=
  let current_avg := s.m_metrics.avg_latency
  let count := s.m_metrics.order_count + 1
  let avg_latency := current_avg + (latency - current_avg) / (count : ℚ)
  let current_max := s.m_max_latency
  let m_max_latency := (casLoop latency current_max s.m_max_latency 0).1
  { s with
    m_metrics := { s.m_metrics with avg_latency := avg_latency, order_count := s.m_metrics.order_count + 1 }
    m_max_latency := m_max_latency }

/-- The member function `tradingManager::updateOrderBook` (lines 169-182); `latency` is the measured
duration of the refresh in microseconds. The result is `none` when the function
throws `std::invalid_argument`. -/
def updateOrderBook (latency : Int) (symbol : String) (s : tradingManager) : Option tradingManager :=
  if symbol = "" then none
  else some (updateMetrics (latency : ℚ) s)

/-! ## Order intake -/

/-- The member function `tradingManager::validateOrder` (lines 417-424). -/
def validateOrder (ord : order) : Bool :=
  decide (ord.order_id ≠ "") && decide (ord.symbol ≠ "") && decide (ord.price > 0)
    && decide (ord.quantity > 0)

/-- The handler `catch (const std::exception&)` of the inner `try` of `submitOrder`
(lines 280-287). -/
def submitOrderCatch (P : Pools) (T : ThreadId) (order_node : Ptr) (s : tradingManager) :
    Bool × tradingManager :=
  let s1 := s.call (PoolCall.deallocateOrder order_node)
  if s1.m_config.enable_transactions then (false, (rollbackTransaction P T s1).2)
  else (false, s1)

/-- The statement `m_active_orders++`. -/
def incrementActiveOrders (s : tradingManager) : tradingManager :=
  { s with m_active_orders := s.m_active_orders + 1 }

/-- The statement `m_active_orders--`. -/
def decrementActiveOrders (s : tradingManager) : tradingManager :=
  { s with m_active_orders := s.m_active_orders - 1 }

/-- The end of the inner `try` of `submitOrder` (lines 269-279): the commit, and the
retraction of the order when the commit fails. -/
def submitOrderCommit (P : Pools) (T : ThreadId) (order_node : Ptr) (s6 : tradingManager) :
    Bool × tradingManager :=
  if s6.m_config.enable_transactions then
    let committed := commitTransaction P T s6
    if !committed.1 then
      (false, decrementActiveOrders (committed.2.call (PoolCall.deallocateOrder order_node)))
    else (true, committed.2)
  else (true, s6)

/-- The part of `tradingManager::submitOrder` after the transaction was begun (lines
246-287): allocation of the node, registration, refresh of the order book, commit. -/
def submitOrderBody (P : Pools) (T : ThreadId) (latency : Int) (ord : order)
    (s1 : tradingManager) : Bool × tradingManager :=
  let order_node := P.allocateOrder s1.calls
  let s2 := s1.call (PoolCall.allocateOrder order_node)
  if order_node = nullptr then
    if s2.m_config.enable_transactions then (false, (rollbackTransaction P T s2).2)
    else (false, s2)
  else
    let s3 := s2.call (PoolCall.writeOrder order_node ord.price ord.quantity)
    let threw := P.registerOrderThrows s3.calls ord.order_id order_node
    let s4 := s3.call (PoolCall.registerOrder ord.order_id order_node threw)
    if threw then submitOrderCatch P T order_node s4
    else
      match updateOrderBook latency ord.symbol s4 with
      | none => submitOrderCatch P T order_node s4
      | some s5 => submitOrderCommit P T order_node (incrementActiveOrders s5)

/-- The member function `tradingManager::submitOrder` (lines 227-295), called by thread `T`; `latency` is the
duration measured by the order-book refresh. -/
def submitOrder (P : Pools) (T : ThreadId) (latency : Int) (ord : order) (s : tradingManager) :
    Bool × tradingManager :=
  if s.m_status ≠ Status.RUNNING then (false, s)
  else if !validateOrder ord then (false, s)
  else
    let begun : Bool × tradingManager :=
      if s.m_config.enable_transactions then beginTransaction P T s else (true, s)
    if !begun.1 then (false, begun.2)
    else submitOrderBody P T latency ord begun.2

/-- The member function `tradingManager::cancelOrder` (lines 184-207), called by thread `T`; `latency` is the
duration measured around the transaction. -/
def cancelOrder (P : Pools) (T : ThreadId) (latency : Int) (_order_id : String)
    (s : tradingManager) : Bool × tradingManager :=
  if s.m_status ≠ Status.RUNNING then (false, s)
  else
    let s1 := if s.m_config.enable_transactions then (beginTransaction P T s).2 else s
    let s2 := if s1.m_config.enable_transactions then (commitTransaction P T s1).2 else s1
    (true, updateMetrics (latency : ℚ) s2)

/-- The member function `tradingManager::handleMarketData` (lines 316-342); `refresh` is the duration measured
inside the order-book refresh and `latency` the one measured around it. -/
def handleMarketData (P : Pools) (refresh latency : Int) (data : marketData)
    (s : tradingManager) : tradingManager :=
  if s.m_status ≠ Status.RUNNING then s
  else
    let data_buffer := P.allocateQuoteBuffer s.calls
    let s1 := s.call (PoolCall.allocateQuoteBuffer data_buffer)
    if data_buffer = nullptr then s1
    else
      let s2 :=
        match updateOrderBook refresh data.symbol s1 with
        | none => s1
        | some s' => updateMetrics (latency : ℚ) s'
      s2.call (PoolCall.deallocateBuffer data_buffer (P.quote_size * P.buffer_capacity))

/-! ## Stop and cleanup -/

/-- The two calls `rollbackTransaction(node); endTransaction(node)` that `stop` and
`cleanupResources` make for one entry of the thread-transaction map. -/
def rollbackAndEnd (P : Pools) (calls : List PoolCall) (node : Ptr) : List PoolCall :=
  calls ++ [PoolCall.rollbackTransaction node (P.rollbackTransaction calls node),
    PoolCall.endTransaction node]

/-- The loop of `stop` over `m_thread_transactions` (lines 365-368). -/
def stopLoop (P : Pools) (m : ThreadTransactions) (calls : List PoolCall) : List PoolCall :=
  m.foldl (fun c pair => rollbackAndEnd P c pair.2) calls

/-- The loop of `cleanupResources` over `m_thread_transactions` (lines 503-508), which
skips null nodes. -/
def cleanupLoop (P : Pools) (m : ThreadTransactions) (calls : List PoolCall) : List PoolCall :=
  m.foldl (fun c pair => if pair.2 ≠ nullptr then rollbackAndEnd P c pair.2 else c) calls

/-- The metrics as the constructor and `cleanupResources` set them. -/
def resetMetrics : performanceMetrics :=
  { order_count := 0, trade_count := 0, avg_latency := 0 }

/-- The part of `cleanupResources` after its call of `stop` (lines 500-529). -/
def cleanupBody (P : Pools) (s : tradingManager) : tradingManager :=
  let s1 := { s with
    calls := cleanupLoop P s.m_thread_transactions s.calls
    m_thread_transactions := [] }
  let s2 := s1.call PoolCall.resetOrders
  { s2 with
    m_metrics := resetMetrics
    m_active_orders := 0
    m_pending_transactions := 0
    m_total_trades := 0
    m_total_latency := 0
    m_max_latency := 0
    m_status := Status.STARTING }

/-- Depth of the calls that `stop` and `cleanupResources` make of each other: the
first component tells `cleanupResources` (`true`) from `stop`. -/
def stopMeasure (cleanup : Bool) (s : tradingManager) : Nat :=
  if cleanup then (if s.m_status = Status.RUNNING then 2 else 0) else 1

mutual

/-- The member function `tradingManager::stop` (lines 354-375). -/
def stop (P : Pools) (s : tradingManager) : Bool × tradingManager :=
  if s.m_status ≠ Status.RUNNING ∧ s.m_status ≠ Status.PAUSED then (false, s)
  else
    let s1 := { s with m_status := Status.STOPPING }
    let s2 := { s1 with
      calls := stopLoop P s1.m_thread_transactions s1.calls
      m_thread_transactions := [] }
    let s3 := cleanupResources P s2
    (true, { s3 with m_status := Status.STARTING })
termination_by stopMeasure false s
decreasing_by simp [stopMeasure]

/-- The member function `tradingManager::cleanupResources` (lines 492-536). -/
def cleanupResources (P : Pools) (s : tradingManager) : tradingManager :=
  let s1 := if _h : s.m_status = Status.RUNNING then (stop P s).2 else s
  cleanupBody P s1
termination_by stopMeasure true s
decreasing_by simp_all [stopMeasure]

end

/-! ## Health -/

/-- The member function `tradingManager::hasCapacity` (lines 413-415). -/
def hasCapacity (P : Pools) (s : tradingManager) : Bool :=
  P.orderHasCapacity s.calls && P.marketDataHasCapacity s.calls
    && P.transactionHasCapacity s.calls

/-- The member function `tradingManager::ishealthy` (lines 409-411). -/
def ishealthy (P : Pools) (s : tradingManager) : Bool :=
  decide (s.m_status = Status.RUNNING) && hasCapacity P s
    && decide (s.m_metrics.avg_latency < 1000)

/-! ## Construction -/

/-- The constructor `tradingManager::tradingManager` (lines 10-28); `none` when it throws
`std::invalid_argument`. The counters are not named in the initialiser list: they start
from the zero of their default member initialisers, and the allocators are fresh. -/
def construct (config : Config) : Option tradingManager :=
  if config.max_orders = 0 ∨ config.max_symbols = 0 then none
  else some
    { m_config := config
      m_status := Status.STARTING
      m_metrics := resetMetrics
      m_thread_transactions := []
      m_active_orders := 0
      m_pending_transactions := 0
      m_total_trades := 0
      m_total_latency := 0
      m_max_latency := 0
      calls := [] }

/-! ## Observations on the call history -/

/-- Number of `endTransaction(node)` calls in a history. -/
def endCount (node : Ptr) (calls : List PoolCall) : Nat :=
  calls.count (PoolCall.endTransaction node)

/-- Number of `beginTransaction()` calls of a history that returned a node. -/
def begunCount (calls : List PoolCall) : Nat :=
  (calls.filter (fun c =>
    match c with
    | PoolCall.beginTransaction node => decide (node ≠ nullptr)
    | _ => false)).length

/-- Number of `endTransaction` calls of a history. -/
def endedCount (calls : List PoolCall) : Nat :=
  (calls.filter (fun c =>
    match c with
    | PoolCall.endTransaction _ => true
    | _ => false)).length

/-- Transaction nodes outstanding in the pool: begun and not ended. -/
def outstandingTransactions (calls : List PoolCall) : Int :=
  (begunCount calls : Int) - (endedCount calls : Int)

/-- A call to the transaction allocator. -/
def PoolCall.isTransactionCall : PoolCall → Bool
  | PoolCall.beginTransaction _ => true
  | PoolCall.registerTransaction _ _ => true
  | PoolCall.commitTransaction _ _ => true
  | PoolCall.rollbackTransaction _ _ => true
  | PoolCall.endTransaction _ => true
  | _ => false

/-- The history after a successful `beginTransaction` by `T` in state `s`. -/
def historyAfterBegin (P : Pools) (T : ThreadId) (s : tradingManager) : List PoolCall :=
  s.calls ++ [PoolCall.beginTransaction (P.beginTransaction s.calls),
    PoolCall.registerTransaction ⟨s.m_pending_transactions, T⟩ (P.beginTransaction s.calls)]

/-- The history `h` extended by a successful `allocateOrder` and the stores into the node. -/
def historyAfterAllocate (P : Pools) (ord : order) (h : List PoolCall) : List PoolCall :=
  h ++ [PoolCall.allocateOrder (P.allocateOrder h),
    PoolCall.writeOrder (P.allocateOrder h) ord.price ord.quantity]

/-- The history `h` (ending with the allocation of `ord`) extended by a `registerOrder`
that does not throw. -/
def historyAfterRegister (P : Pools) (ord : order) (h : List PoolCall) : List PoolCall :=
  historyAfterAllocate P ord h ++
    [PoolCall.registerOrder ord.order_id (P.allocateOrder h) false]

/-- A step from `s` to `t` that only talks to the transaction allocator: the history
grows by transaction calls, and the configuration, the status, the metrics and the
active-order count stay as they are. -/
def TransactionStep (s t : tradingManager) : Prop :=
  ∃ added : List PoolCall,
    (∀ c ∈ added, c.isTransactionCall = true) ∧
    t.calls = s.calls ++ added ∧
    t.m_active_orders = s.m_active_orders ∧
    t.m_config = s.m_config ∧
    t.m_status = s.m_status ∧
    t.m_metrics = s.m_metrics

/-- Order atomicity of a call that took the manager from `s` to `r.2` and returned
`r.1`: either it returned true and the active-order count grew by one, or it returned
false, the active-order count is as before, and every order node that the call
allocated was deallocated exactly once by the call. -/
def OrderAtomic (s : tradingManager) (r : Bool × tradingManager) : Prop :=
  ∃ added : List PoolCall,
    r.2.calls = s.calls ++ added ∧
    ((r.1 = true ∧ r.2.m_active_orders = s.m_active_orders + 1) ∨
      (r.1 = false ∧ r.2.m_active_orders = s.m_active_orders ∧
        ∀ node, node ≠ nullptr → PoolCall.allocateOrder node ∈ added →
          added.count (PoolCall.deallocateOrder node) = 1))

/-- The calls `updateMetrics(L1); ...; updateMetrics(Ln)` made one after the other. -/
def recordLatencies (latencies : List ℚ) (s : tradingManager) : tradingManager :=
  latencies.foldl (fun t latency => updateMetrics latency t) s

/-! ## Concrete allocators and states -/

/-- Allocators that never fail: every allocation returns a fresh non-null address, a
node is `PENDING` until a commit or rollback of it succeeded, nothing throws. -/
def idealPools : Pools :=
  { beginTransaction := fun h => h.length + 1
    commitTransaction := fun _ _ => true
    rollbackTransaction := fun _ _ => true
    status := fun h node =>
      if PoolCall.commitTransaction node true ∈ h then transactionStatus.COMMITTED
      else if PoolCall.rollbackTransaction node true ∈ h then transactionStatus.ROLLED_BACK
      else transactionStatus.PENDING
    allocateOrder := fun h => h.length + 1
    registerOrderThrows := fun _ _ _ => false
    allocateQuoteBuffer := fun h => h.length + 1
    orderHasCapacity := fun _ => true
    marketDataHasCapacity := fun _ => true
    transactionHasCapacity := fun _ => true
    quote_size := 64
    buffer_capacity := 1024 }

/-- Allocators whose transaction pool refuses every commit. -/
def refusingPools : Pools :=
  { idealPools with commitTransaction := fun _ _ => false }

/-- A configuration with transactions enabled. -/
def exampleConfig : Config :=
  { max_orders := 100, max_symbols := 10, enable_transactions := true }

/-- A manager as constructed from `exampleConfig`, in status `STARTING`. -/
def freshManager : tradingManager :=
  { m_config := exampleConfig
    m_status := Status.STARTING
    m_metrics := resetMetrics
    m_thread_transactions := []
    m_active_orders := 0
    m_pending_transactions := 0
    m_total_trades := 0
    m_total_latency := 0
    m_max_latency := 0
    calls := [] }

/-- The fresh manager after `start()`. -/
def runningManager : tradingManager :=
  { freshManager with m_status := Status.RUNNING }

/-- A running manager in which thread `7` holds the transaction node `1`. -/
def busyManager : tradingManager :=
  { runningManager with
    m_thread_transactions := [(7, 1)]
    m_pending_transactions := 1
    calls := [PoolCall.beginTransaction 1, PoolCall.registerTransaction ⟨0, 7⟩ 1] }

/-- The order of scenario 3 of the specification. -/
def orderA1 : order :=
  { order_id := "A1", symbol := "X", price := 10, quantity := 5 }

/-- The order of scenario 4 of the specification: an empty identifier. -/
def orderNoId : order :=
  { order_id := "", symbol := "X", price := 10, quantity := 5 }

/-! ## The retry loop, one iteration at a time -/

/-- One iteration of the retry loop of `updateMetrics` (line 434), entered with
`latency > current_max`: the exchange `compare_exchange(current_max, latency)` on the
pair `(current_max, m_max_latency)`. When the stored value is the expected one it
stores `latency` and leaves `current_max`; otherwise it loads the stored value into
`current_max`. -/
def casStep (latency : ℚ) (c : ℚ × ℚ) : ℚ × ℚ :=
  if c.2 = c.1 then (c.1, latency) else (c.2, c.2)

/-- Allocators whose transaction pool is exhausted: `beginTransaction()` returns null. -/
def exhaustedPools : Pools :=
  { idealPools with beginTransaction := fun _ => nullptr }

/-- Allocators whose market-data pool is exhausted: `allocateQuoteBuffer()` returns null. -/
def noBufferPools : Pools :=
  { idealPools with allocateQuoteBuffer := fun _ => nullptr }

/-- A configuration without any order capacity (scenario 1 of the specification). -/
def zeroOrdersConfig : Config :=
  { max_orders := 0, max_symbols := 10, enable_transactions := true }

/-- The calls `rollbackTransaction(node); endTransaction(node)` for each node of a list in
turn, with the results of the rollbacks. -/
def forcedCalls : List Ptr → List Bool → List PoolCall
  | node :: nodes, result :: results =>
    PoolCall.rollbackTransaction node result :: PoolCall.endTransaction node ::
      forcedCalls nodes results
  | _, _ => []

/-- Allocators whose order pool is exhausted: `allocateOrder()` returns null. -/
def noOrderPools : Pools :=
  { idealPools with allocateOrder := fun _ => nullptr }

/-! ## Concurrent calls of `updateMetrics`: the atomic maximum

The part of `updateMetrics` that touches the atomic `m_max_latency` (lines 432-435), run
by several threads at once. A thread takes one step at a time, each step being one
atomic operation on `m_max_latency` (the load, or the test of the loop with its
exchange); the steps of the threads interleave in any order. The operations use the
default memory order, so every run is such an interleaving. -/

/-- Where a caller is in lines 432-435: before the load, at the test of the loop with
its local `current_max`, or past the loop. -/
inductive Phase where
  | load
  | loop (current_max : ℚ)
  | returned
deriving DecidableEq

/-- A thread inside `updateMetrics(latency)`. -/
structure Caller where
  latency : ℚ
  phase : Phase
deriving DecidableEq

/-- The atomic `m_max_latency` and the threads that are inside `updateMetrics`. -/
structure Shared where
  m_max_latency : ℚ
  callers : List Caller
deriving DecidableEq

/-- One step of a caller, given the stored maximum `m`; returns the stored maximum after
the step. At the load, `current_max` takes the stored value. At the loop, when
`latency > current_max` the caller attempts the exchange (`casStep`), which may fail
spuriously when the expected value matches (`compare_exchange_weak`) and then changes
nothing; otherwise the caller leaves the loop. -/
def callerStep (spurious : Bool) (m : ℚ) (c : Caller) : ℚ × Caller :=
  match c.phase with
  | Phase.load => (m, { c with phase := Phase.loop m })
  | Phase.loop current_max =>
    if c.latency > current_max then
      if m = current_max ∧ spurious = true then (m, c)
      else
        ((casStep c.latency (current_max, m)).2,
          { c with phase := Phase.loop (casStep c.latency (current_max, m)).1 })
    else (m, { c with phase := Phase.returned })
  | Phase.returned => (m, c)

/-- The caller at position `i` takes a step; no caller does when there is none at `i`. -/
def stepCallers (spurious : Bool) (m : ℚ) : Nat → List Caller → ℚ × List Caller
  | _, [] => (m, [])
  | 0, c :: rest => ((callerStep spurious m c).1, (callerStep spurious m c).2 :: rest)
  | i + 1, c :: rest =>
    ((stepCallers spurious m i rest).1, c :: (stepCallers spurious m i rest).2)

/-- One step of the system: the scheduler picks the caller `move.1`, and `move.2` tells
whether its exchange fails spuriously. -/
def sharedStep (σ : Shared) (move : Nat × Bool) : Shared :=
  { m_max_latency := (stepCallers move.2 σ.m_max_latency move.1 σ.callers).1
    callers := (stepCallers move.2 σ.m_max_latency move.1 σ.callers).2 }

/-- A run of the system under a schedule. -/
def runSchedule (schedule : List (Nat × Bool)) (σ : Shared) : Shared :=
  schedule.foldl sharedStep σ

/-- The threads with latencies `L1..LN` all about to enter lines 432-435, the stored
maximum being `m`. -/
def enterAll (m : ℚ) (latencies : List ℚ) : Shared :=
  { m_max_latency := m, callers := latencies.map (fun l => { latency := l, phase := Phase.load }) }

/-- What a caller knows about the stored maximum `m`: its `current_max` was read from
it, and once it has returned its latency does not exceed it. -/
def callerOk (m : ℚ) (c : Caller) : Prop :=
  match c.phase with
  | Phase.load => True
  | Phase.loop current_max => current_max ≤ m
  | Phase.returned => c.latency ≤ m

/-- A schedule for two callers: both load, caller 0 suffers a spurious failure and then
stores its latency, caller 1 fails its first exchange against the stale `current_max`
and then stores its latency, and both reload and leave the loop. -/
def raceSchedule : List (Nat × Bool) :=
  [(0, false), (1, false), (0, true), (0, false), (1, false), (1, false), (0, false),
    (0, false), (1, false), (1, false)]

/-! ## Sequences of calls -/

/-- One call of a public member function by some thread, with the clock readings it
makes. -/
inductive Operation where
  | start
  | stop
  | pause
  | resume
  | beginTransaction (T : ThreadId)
  | commitTransaction (T : ThreadId)
  | rollbackTransaction (T : ThreadId)
  | submitOrder (T : ThreadId) (latency : Int) (ord : order)
  | cancelOrder (T : ThreadId) (latency : Int) (order_id : String)
  | handleMarketData (refresh latency : Int) (data : marketData)

/-- The state after one call, taken as an atomic step. -/
def applyOperation (P : Pools) (s : tradingManager) : Operation → tradingManager
  | Operation.start => (start s).2
  | Operation.stop => (stop P s).2
  | Operation.pause => (pause s).2
  | Operation.resume => (resume s).2
  | Operation.beginTransaction T => (beginTransaction P T s).2
  | Operation.commitTransaction T => (commitTransaction P T s).2
  | Operation.rollbackTransaction T => (rollbackTransaction P T s).2
  | Operation.submitOrder T latency ord => (submitOrder P T latency ord s).2
  | Operation.cancelOrder T latency order_id => (cancelOrder P T latency order_id s).2
  | Operation.handleMarketData refresh latency data => handleMarketData P refresh latency data s

/-- The state after a sequence of calls. -/
def runOperations (P : Pools) (ops : List Operation) (s : tradingManager) : tradingManager :=
  ops.foldl (applyOperation P) s

/-- Whether `node` is open after the call `c`, given whether it was open before: a
`beginTransaction()` that returns the node opens it; a commit, a rollback or an end of
the node closes it. -/
def openAfter (node : Ptr) (wasOpen : Bool) : PoolCall → Bool
  | PoolCall.beginTransaction n => if n = node then true else wasOpen
  | PoolCall.commitTransaction n _ => if n = node then false else wasOpen
  | PoolCall.rollbackTransaction n _ => if n = node then false else wasOpen
  | PoolCall.endTransaction n => if n = node then false else wasOpen
  | _ => wasOpen

/-- Whether the transaction node `node` is open in a history: the pool handed it out
and it was not committed, rolled back or ended since. -/
def isOpen (calls : List PoolCall) (node : Ptr) : Bool :=
  calls.foldl (openAfter node) false

/-- The proviso on the transaction pool: it hands out PENDING nodes and its commit and
rollback succeed on them. As long as a (non-null) node it handed out is open, the node
is PENDING and the pool accepts its commit and its rollback; and the pool does not hand
out a node that is still open. -/
def CooperativePools (P : Pools) : Prop :=
  (∀ calls, P.beginTransaction calls ≠ nullptr → isOpen calls (P.beginTransaction calls) = false) ∧
  (∀ calls node, node ≠ nullptr → isOpen calls node = true →
    P.status calls node = transactionStatus.PENDING ∧
    P.commitTransaction calls node = true ∧
    P.rollbackTransaction calls node = true)

/-- The agreement of the registry with the counter: the pending count is the number of
entries of the thread-transaction map, no thread and no node occurs in two entries, and
every node of the map is a non-null node that is open in the history. -/
def Agreement (s : tradingManager) : Prop :=
  s.m_pending_transactions = s.m_thread_transactions.length ∧
  (s.m_thread_transactions.map Prod.fst).Nodup ∧
  (s.m_thread_transactions.map Prod.snd).Nodup ∧
  ∀ e ∈ s.m_thread_transactions, e.2 ≠ nullptr ∧ isOpen s.calls e.2 = true

/-- The largest node that `beginTransaction()` returned in a history, from `start`. -/
def maxBegun (start : Nat) (calls : List PoolCall) : Nat :=
  calls.foldl (fun acc c =>
    match c with
    | PoolCall.beginTransaction n => max acc n
    | _ => acc) start

/-- Allocators that satisfy the proviso: the transaction pool hands out a node above
all those it handed out before, a node is PENDING while it is open, and commit and
rollback succeed. -/
def cooperativePools : Pools :=
  { idealPools with
    beginTransaction := fun calls => maxBegun 0 calls + 1
    status := fun calls node =>
      if isOpen calls node then transactionStatus.PENDING else transactionStatus.COMMITTED }

/-- A sequence of calls by the threads 7 and 8: start, two begins, a second begin by
thread 7, an order by thread 8 (which fails on its begin), a cancel by thread 7 (which
consumes its transaction), a commit and a rollback by thread 8, an order by thread 7. -/
def exampleOperations : List Operation :=
  [Operation.start, Operation.beginTransaction 7, Operation.beginTransaction 8,
    Operation.beginTransaction 7, Operation.submitOrder 8 3 orderA1,
    Operation.cancelOrder 7 4 "A1", Operation.commitTransaction 8,
    Operation.rollbackTransaction 8, Operation.submitOrder 7 2 orderA1]

/-! ## Properties -/

/-! ### The thread-transaction map -/

theorem find_cons (U T : ThreadId) (node : Ptr) (rest : ThreadTransactions) :
    ThreadTransactions.find ((U, node) :: rest) T
      = if U = T then some node else ThreadTransactions.find rest T := rfl

theorem erase_cons (U T : ThreadId) (node : Ptr) (rest : ThreadTransactions) :
    ThreadTransactions.erase ((U, node) :: rest) T
      = if U = T then ThreadTransactions.erase rest T
        else (U, node) :: ThreadTransactions.erase rest T := by
  by_cases h : U = T <;> simp [ThreadTransactions.erase, h]

theorem find_erase_self (m : ThreadTransactions) (T : ThreadId) :
    (m.erase T).find T = none := by
  induction m with
  | nil => rfl
  | cons e rest ih =>
    obtain ⟨U, node⟩ := e
    rw [erase_cons]
    by_cases h : U = T
    · rw [if_pos h]; exact ih
    · rw [if_neg h, find_cons, if_neg h]; exact ih

theorem find_erase_ne (m : ThreadTransactions) (T U : ThreadId) (hne : U ≠ T) :
    (m.erase T).find U = m.find U := by
  induction m with
  | nil => rfl
  | cons e rest ih =>
    obtain ⟨V, node⟩ := e
    rw [erase_cons, find_cons]
    by_cases h : V = T
    · have hVU : V ≠ U := fun hv => hne (hv ▸ h)
      rw [if_pos h, if_neg hVU]; exact ih
    · rw [if_neg h, find_cons]
      by_cases hVU : V = U
      · rw [if_pos hVU, if_pos hVU]
      · rw [if_neg hVU, if_neg hVU]; exact ih

theorem erase_of_find_none (m : ThreadTransactions) (T : ThreadId)
    (h : m.find T = none) : m.erase T = m := by
  induction m with
  | nil => rfl
  | cons e rest ih =>
    obtain ⟨U, node⟩ := e
    rw [find_cons] at h
    by_cases hU : U = T
    · rw [if_pos hU] at h; exact absurd h (by simp)
    · rw [if_neg hU] at h
      rw [erase_cons, if_neg hU, ih h]

theorem find_assign_self (m : ThreadTransactions) (T : ThreadId) (node : Ptr) :
    (m.assign T node).find T = some node := by
  simp [ThreadTransactions.assign, ThreadTransactions.find]

theorem find_assign_ne (m : ThreadTransactions) (T U : ThreadId) (node : Ptr) (hne : U ≠ T) :
    (m.assign T node).find U = m.find U := by
  simp only [ThreadTransactions.assign, ThreadTransactions.find, hne.symm, if_false]
  exact find_erase_ne m T U hne

theorem erase_assign (m : ThreadTransactions) (T : ThreadId) (node : Ptr)
    (h : m.find T = none) : (m.assign T node).erase T = m := by
  simp only [ThreadTransactions.assign]
  rw [erase_cons, if_pos rfl, erase_of_find_none m T h, erase_of_find_none m T h]

/-! ### Lifecycle (C6) -/

/-- C6: `start()` succeeds exactly from STARTING or PAUSED, `pause()` exactly from RUNNING
and `resume()` exactly from PAUSED; a successful `start` or `resume` sets the status to
RUNNING and a successful `pause` sets it to PAUSED, changing no other member; a rejected
call returns the state unchanged. -/
theorem lifecycle_transition_table (s : tradingManager) :
    ((start s).1 = true ↔ s.m_status = Status.STARTING ∨ s.m_status = Status.PAUSED) ∧
    ((pause s).1 = true ↔ s.m_status = Status.RUNNING) ∧
    ((resume s).1 = true ↔ s.m_status = Status.PAUSED) ∧
    ((start s).1 = true → (start s).2 = { s with m_status := Status.RUNNING }) ∧
    ((resume s).1 = true → (resume s).2 = { s with m_status := Status.RUNNING }) ∧
    ((pause s).1 = true → (pause s).2 = { s with m_status := Status.PAUSED }) ∧
    ((start s).1 = false → (start s).2 = s) ∧
    ((pause s).1 = false → (pause s).2 = s) ∧
    ((resume s).1 = false → (resume s).2 = s) := by
  obtain ⟨cfg, st, met, m, a, p, t, tl, ml, c⟩ := s
  cases st <;> simp [start, pause, resume]

/-- Witness of C6: scenario 2 of the specification, `start()` on a fresh manager returns
true and the manager is RUNNING; `pause()` then `resume()` succeed in turn, and `resume()`
on a RUNNING manager is rejected. -/
theorem lifecycle_transition_table_witness :
    start freshManager = (true, runningManager) ∧
    (pause runningManager).1 = true ∧
    (resume (pause runningManager).2) = (true, runningManager) ∧
    resume runningManager = (false, runningManager) := by
  have h0 := lifecycle_transition_table freshManager
  have h1 := lifecycle_transition_table runningManager
  have h2 := lifecycle_transition_table (pause runningManager).2
  have e0 : (start freshManager).1 = true := h0.1.2 (Or.inl rfl)
  have e1 : (pause runningManager).1 = true := h1.2.1.2 rfl
  have e2 : (resume (pause runningManager).2).1 = true := h2.2.2.1.2 (by decide)
  have e3 : (resume runningManager).1 = false := by
    cases h : (resume runningManager).1
    · rfl
    · exact absurd (h1.2.2.1.1 h) (by decide)
  exact ⟨Prod.ext e0 (h0.2.2.2.1 e0), e1,
    Prod.ext e2 ((h2.2.2.2.2.1 e2).trans (by decide)),
    Prod.ext e3 (h1.2.2.2.2.2.2.2.2 e3)⟩

/-! ### The RUNNING gate (C8) -/

/-- C8: when the status is not RUNNING, `submitOrder`, `cancelOrder` and
`beginTransaction` return false and `handleMarketData` returns, each leaving the whole
state, the history of allocator calls included, unchanged. -/
theorem running_gate (P : Pools) (T : ThreadId) (refresh latency : Int) (ord : order)
    (order_id : String) (data : marketData) (s : tradingManager)
    (h : s.m_status ≠ Status.RUNNING) :
    submitOrder P T latency ord s = (false, s) ∧
    cancelOrder P T latency order_id s = (false, s) ∧
    beginTransaction P T s = (false, s) ∧
    handleMarketData P refresh latency data s = s := by
  simp [submitOrder, cancelOrder, beginTransaction, handleMarketData, h]

/-- Witness of C8: the gate on a manager that was never started. -/
theorem running_gate_witness :
    freshManager.m_status ≠ Status.RUNNING ∧
    (submitOrder idealPools 7 3 orderA1 freshManager = (false, freshManager) ∧
     cancelOrder idealPools 7 3 "A1" freshManager = (false, freshManager) ∧
     beginTransaction idealPools 7 freshManager = (false, freshManager) ∧
     handleMarketData idealPools 2 3 ⟨"X"⟩ freshManager = freshManager) :=
  ⟨by decide, running_gate idealPools 7 2 3 orderA1 "A1" ⟨"X"⟩ freshManager (by decide)⟩

/-! ### Validation (C7) -/

/-- What `validateOrder` accepts: non-empty identifier and symbol, strictly positive
price and quantity. -/
theorem validateOrder_iff (ord : order) :
    validateOrder ord = true ↔
      ord.order_id ≠ "" ∧ ord.symbol ≠ "" ∧ 0 < ord.price ∧ 0 < ord.quantity := by
  simp [validateOrder, and_assoc]

/-- C7: in a RUNNING manager `submitOrder` rejects an order with an empty identifier, an
empty symbol, a price that is not strictly positive or a quantity that is not strictly
positive, and returns the state unchanged (no transaction begun, no allocator called);
`validateOrder` accepts every order with non-empty identifier and symbol and strictly
positive price and quantity. -/
theorem malformed_order_rejected (P : Pools) (T : ThreadId) (latency : Int) (ord : order)
    (s : tradingManager) (hrun : s.m_status = Status.RUNNING) :
    (ord.order_id = "" ∨ ord.symbol = "" ∨ ¬ 0 < ord.price ∨ ¬ 0 < ord.quantity →
      submitOrder P T latency ord s = (false, s)) ∧
    (ord.order_id ≠ "" ∧ ord.symbol ≠ "" ∧ 0 < ord.price ∧ 0 < ord.quantity →
      validateOrder ord = true) := by
  refine ⟨fun hbad => ?_, fun hgood => (validateOrder_iff ord).2 hgood⟩
  have hv : validateOrder ord = false := by
    cases hval : validateOrder ord
    · rfl
    · exfalso
      obtain ⟨h1, h2, h3, h4⟩ := (validateOrder_iff ord).1 hval
      rcases hbad with hb | hb | hb | hb
      · exact h1 hb
      · exact h2 hb
      · exact hb h3
      · exact hb h4
  simp [submitOrder, hrun, hv]

/-- Witness of C7: scenario 4 of the specification, an order with an empty identifier. -/
theorem malformed_order_rejected_witness :
    runningManager.m_status = Status.RUNNING ∧
    ((orderNoId.order_id = "" ∨ orderNoId.symbol = "" ∨ ¬ 0 < orderNoId.price ∨
        ¬ 0 < orderNoId.quantity →
      submitOrder idealPools 7 3 orderNoId runningManager = (false, runningManager)) ∧
    (orderNoId.order_id ≠ "" ∧ orderNoId.symbol ≠ "" ∧ 0 < orderNoId.price ∧
        0 < orderNoId.quantity →
      validateOrder orderNoId = true)) ∧
    submitOrder idealPools 7 3 orderNoId runningManager = (false, runningManager) :=
  ⟨rfl, malformed_order_rejected idealPools 7 3 orderNoId runningManager rfl,
    (malformed_order_rejected idealPools 7 3 orderNoId runningManager rfl).1 (Or.inl rfl)⟩

/-! ### Stop (C5) -/

/-- The loop of `cleanupResources` makes no call on an empty map. -/
theorem cleanupLoop_nil (P : Pools) (calls : List PoolCall) :
    cleanupLoop P [] calls = calls := rfl

/-- What `stop` computes: `cleanupResources` runs with status STOPPING and so does not
call `stop` again. -/
theorem stop_eq (P : Pools) (s : tradingManager) :
    stop P s =
      if s.m_status ≠ Status.RUNNING ∧ s.m_status ≠ Status.PAUSED then (false, s)
      else
        (true,
          { s with
            calls := stopLoop P s.m_thread_transactions s.calls ++ [PoolCall.resetOrders]
            m_thread_transactions := []
            m_metrics := resetMetrics
            m_active_orders := 0
            m_pending_transactions := 0
            m_total_trades := 0
            m_total_latency := 0
            m_max_latency := 0
            m_status := Status.STARTING }) := by
  rw [stop]
  split_ifs with h
  · rfl
  · simp [cleanupResources, cleanupBody, cleanupLoop_nil, tradingManager.call]

/-- C5: `stop()` returns true exactly when the status is RUNNING or PAUSED, and then the
state has status STARTING, no active order, no pending transaction, no trade, an empty
thread-transaction map and reset metrics (order count, average latency and max latency
all 0); from STARTING or STOPPING it returns false and changes nothing. -/
theorem stop_is_reset (P : Pools) (s : tradingManager) :
    ((stop P s).1 = true ↔ s.m_status = Status.RUNNING ∨ s.m_status = Status.PAUSED) ∧
    ((stop P s).1 = true →
      (stop P s).2.m_status = Status.STARTING ∧
      (stop P s).2.m_active_orders = 0 ∧
      (stop P s).2.m_pending_transactions = 0 ∧
      (stop P s).2.m_total_trades = 0 ∧
      (stop P s).2.m_thread_transactions = [] ∧
      (stop P s).2.m_metrics.order_count = 0 ∧
      (stop P s).2.m_metrics.avg_latency = 0 ∧
      (stop P s).2.m_max_latency = 0) ∧
    (s.m_status = Status.STARTING ∨ s.m_status = Status.STOPPING → stop P s = (false, s)) := by
  rw [stop_eq]
  obtain ⟨cfg, st, met, m, a, p, t, tl, ml, c⟩ := s
  cases st <;> simp [resetMetrics]

/-- Witness of C5: `stop()` on a running manager in which thread 7 holds a transaction
returns true and resets the manager; `stop()` on a manager that was never started
returns false and changes nothing. -/
theorem stop_is_reset_witness :
    (stop idealPools busyManager).1 = true ∧
    (stop idealPools busyManager).2.m_status = Status.STARTING ∧
    (stop idealPools busyManager).2.m_pending_transactions = 0 ∧
    (stop idealPools busyManager).2.m_thread_transactions = [] ∧
    stop idealPools freshManager = (false, freshManager) := by
  have h := stop_is_reset idealPools busyManager
  have e : (stop idealPools busyManager).1 = true := h.1.2 (Or.inl rfl)
  exact ⟨e, (h.2.1 e).1, (h.2.1 e).2.2.1, (h.2.1 e).2.2.2.2.1,
    (stop_is_reset idealPools freshManager).2.2 (Or.inl rfl)⟩

/-! ### Transactions (C2, C3, C4) -/

/-- A successful `beginTransaction`: the node is requested and registered, `T` is mapped
to it and the pending count grows by one. -/
theorem beginTransaction_success (P : Pools) (T : ThreadId) (s : tradingManager)
    (hrun : s.m_status = Status.RUNNING) (hfree : s.m_thread_transactions.find T = none)
    (hnode : P.beginTransaction s.calls ≠ nullptr) :
    beginTransaction P T s =
      (true,
        { s with
          calls := historyAfterBegin P T s
          m_thread_transactions := s.m_thread_transactions.assign T (P.beginTransaction s.calls)
          m_pending_transactions := s.m_pending_transactions + 1 }) := by
  simp [beginTransaction, hrun, hfree, hnode, tradingManager.call, historyAfterBegin]

/-- When `T` already has an entry, `beginTransaction` returns the state unchanged. -/
theorem beginTransaction_busy (P : Pools) (T : ThreadId) (s : tradingManager)
    (hbusy : s.m_thread_transactions.find T ≠ none) :
    beginTransaction P T s = (false, s) := by
  unfold beginTransaction
  split_ifs with h1 h2
  · rfl
  · rfl
  · exfalso
    cases hf : s.m_thread_transactions.find T with
    | none => exact hbusy hf
    | some node => simp [hf] at h2

/-- C2: `beginTransaction` by thread `T` returns true exactly when the status is RUNNING,
`T` has no entry in the thread-transaction map and the transaction pool supplies a node;
on true, `T` is mapped to that node, the pending count grows by one and every other
thread keeps its entry; when `T` already has an entry the call returns false and leaves
the state, the history of allocator calls included, unchanged, while another thread `U`
without an entry still succeeds. -/
theorem beginTransaction_exclusive (P : Pools) (T : ThreadId) (s : tradingManager) :
    ((beginTransaction P T s).1 = true ↔
      s.m_status = Status.RUNNING ∧ s.m_thread_transactions.find T = none ∧
        P.beginTransaction s.calls ≠ nullptr) ∧
    ((beginTransaction P T s).1 = true →
      (beginTransaction P T s).2.m_thread_transactions.find T
          = some (P.beginTransaction s.calls) ∧
      (beginTransaction P T s).2.m_pending_transactions = s.m_pending_transactions + 1 ∧
      ∀ U, U ≠ T →
        (beginTransaction P T s).2.m_thread_transactions.find U
          = s.m_thread_transactions.find U) ∧
    (s.m_thread_transactions.find T ≠ none →
      beginTransaction P T s = (false, s) ∧
      ∀ U, s.m_status = Status.RUNNING → s.m_thread_transactions.find U = none →
        P.beginTransaction s.calls ≠ nullptr → (beginTransaction P U s).1 = true) := by
  have hiff : (beginTransaction P T s).1 = true ↔
      s.m_status = Status.RUNNING ∧ s.m_thread_transactions.find T = none ∧
        P.beginTransaction s.calls ≠ nullptr := by
    constructor
    · intro h
      by_cases hrun : s.m_status = Status.RUNNING
      · cases hf : s.m_thread_transactions.find T with
        | some node =>
          rw [beginTransaction_busy P T s (by simp [hf])] at h
          exact absurd h (by simp)
        | none =>
          refine ⟨hrun, rfl, fun hnull => ?_⟩
          simp [beginTransaction, hrun, hf, hnull] at h
      · simp [beginTransaction, hrun] at h
    · rintro ⟨hrun, hfree, hnode⟩
      rw [beginTransaction_success P T s hrun hfree hnode]
  refine ⟨hiff, fun h => ?_, fun hbusy => ⟨beginTransaction_busy P T s hbusy, ?_⟩⟩
  · obtain ⟨hrun, hfree, hnode⟩ := hiff.1 h
    rw [beginTransaction_success P T s hrun hfree hnode]
    exact ⟨find_assign_self _ _ _, rfl, fun U hU => find_assign_ne _ _ _ _ hU⟩
  · intro U hrun hfree hnode
    rw [beginTransaction_success P U s hrun hfree hnode]

/-- Witness of C2: scenario 5 of the specification. Thread 7 begins a transaction on a
freshly started manager; thread 8 then begins one too; a second begin by thread 7 is
rejected and changes nothing. -/
theorem beginTransaction_exclusive_witness :
    (beginTransaction idealPools 7 runningManager).1 = true ∧
    (beginTransaction idealPools 7 runningManager).2.m_thread_transactions.find 7 = some 1 ∧
    (beginTransaction idealPools 7 runningManager).2.m_pending_transactions = 1 ∧
    (beginTransaction idealPools 8 (beginTransaction idealPools 7 runningManager).2).1 = true ∧
    beginTransaction idealPools 7 (beginTransaction idealPools 7 runningManager).2
      = (false, (beginTransaction idealPools 7 runningManager).2) := by
  have h := beginTransaction_exclusive idealPools 7 runningManager
  have e : (beginTransaction idealPools 7 runningManager).1 = true :=
    h.1.2 ⟨rfl, rfl, by decide⟩
  have h2 := (beginTransaction_exclusive idealPools 7
    (beginTransaction idealPools 7 runningManager).2).2.2 (by decide)
  exact ⟨e, (h.2.1 e).1, (h.2.1 e).2.1, h2.2 8 (by decide) (by decide) (by decide), h2.1⟩

/-- What `commitTransaction` does when `T` has an entry whose node is PENDING: the entry
is removed and the pool is asked to commit; the node is ended and the pending count
decremented only when the pool's commit succeeded. -/
theorem commitTransaction_pending (P : Pools) (T : ThreadId) (s : tradingManager) (node : Ptr)
    (hfind : s.m_thread_transactions.find T = some node) (hnode : node ≠ nullptr)
    (hpending : P.status s.calls node = transactionStatus.PENDING) :
    commitTransaction P T s =
      if P.commitTransaction s.calls node = true then
        (true,
          { s with
            m_thread_transactions := s.m_thread_transactions.erase T
            calls := s.calls ++
              [PoolCall.commitTransaction node true, PoolCall.endTransaction node]
            m_pending_transactions := s.m_pending_transactions - 1 })
      else
        (false,
          { s with
            m_thread_transactions := s.m_thread_transactions.erase T
            calls := s.calls ++ [PoolCall.commitTransaction node false] }) := by
  unfold commitTransaction
  simp only [hfind]
  by_cases hok : P.commitTransaction s.calls node = true
  · by_cases hp : 0 < s.m_pending_transactions
    · simp [hnode, hpending, hok, tradingManager.call, decrementPending, hp]
    · have hz : s.m_pending_transactions = 0 := by omega
      simp [hnode, hpending, hok, tradingManager.call, decrementPending, hz]
  · simp [hnode, hpending, hok, tradingManager.call]

/-- What `rollbackTransaction` does when `T` has an entry with a node. -/
theorem rollbackTransaction_found (P : Pools) (T : ThreadId) (s : tradingManager) (node : Ptr)
    (hfind : s.m_thread_transactions.find T = some node) (hnode : node ≠ nullptr) :
    rollbackTransaction P T s =
      if P.rollbackTransaction s.calls node = true then
        (true,
          { s with
            m_thread_transactions := s.m_thread_transactions.erase T
            calls := s.calls ++
              [PoolCall.rollbackTransaction node true, PoolCall.endTransaction node]
            m_pending_transactions := s.m_pending_transactions - 1 })
      else
        (false,
          { s with
            m_thread_transactions := s.m_thread_transactions.erase T
            calls := s.calls ++ [PoolCall.rollbackTransaction node false] }) := by
  unfold rollbackTransaction
  simp only [hfind]
  by_cases hok : P.rollbackTransaction s.calls node = true
  · by_cases hp : 0 < s.m_pending_transactions
    · simp [hnode, hok, tradingManager.call, decrementPending, hp]
    · have hz : s.m_pending_transactions = 0 := by omega
      simp [hnode, hok, tradingManager.call, decrementPending, hz]
  · simp [hnode, hok, tradingManager.call]

/-- Counterexample to C3 as stated: thread 7 holds the PENDING node 1 and the pool
refuses the commit; `commitTransaction` removes the entry and returns false, but the
node is not ended and the pending count stays 1. -/
theorem commit_refused_node_not_ended :
    busyManager.m_thread_transactions.find 7 = some 1 ∧
    refusingPools.status busyManager.calls 1 = transactionStatus.PENDING ∧
    (commitTransaction refusingPools 7 busyManager).1 = false ∧
    (commitTransaction refusingPools 7 busyManager).2.calls
      = busyManager.calls ++ [PoolCall.commitTransaction 1 false] ∧
    endCount 1 (commitTransaction refusingPools 7 busyManager).2.calls = 0 ∧
    busyManager.m_pending_transactions = 1 ∧
    (commitTransaction refusingPools 7 busyManager).2.m_pending_transactions = 1 := by
  decide

/-- C3, amended: when thread `T` has an entry whose node is PENDING, `commitTransaction`
removes the entry of `T` from the thread-transaction map and asks the transaction pool
to commit that node; when the pool's commit returns true, it then ends the node exactly
once and decrements the pending count by one without going below zero. -/
theorem commitTransaction_contract (P : Pools) (T : ThreadId) (s : tradingManager) (node : Ptr)
    (hfind : s.m_thread_transactions.find T = some node) (hnode : node ≠ nullptr)
    (hpending : P.status s.calls node = transactionStatus.PENDING) :
    (commitTransaction P T s).2.m_thread_transactions.find T = none ∧
    (∃ rest, (commitTransaction P T s).2.calls = s.calls ++
      PoolCall.commitTransaction node (P.commitTransaction s.calls node) :: rest) ∧
    (P.commitTransaction s.calls node = true →
      (commitTransaction P T s).1 = true ∧
      (commitTransaction P T s).2.calls
        = s.calls ++ [PoolCall.commitTransaction node true, PoolCall.endTransaction node] ∧
      endCount node (commitTransaction P T s).2.calls = endCount node s.calls + 1 ∧
      (commitTransaction P T s).2.m_pending_transactions = s.m_pending_transactions - 1) := by
  rw [commitTransaction_pending P T s node hfind hnode hpending]
  cases hok : P.commitTransaction s.calls node
  · simp [find_erase_self]
  · simp [find_erase_self, endCount, List.count_cons]

/-- Witness of C3 (amended): thread 7 commits its PENDING node 1 on pools that accept;
the node is ended once and the pending count goes from 1 to 0. -/
theorem commitTransaction_contract_witness :
    busyManager.m_thread_transactions.find 7 = some 1 ∧
    (1 : Ptr) ≠ nullptr ∧
    idealPools.status busyManager.calls 1 = transactionStatus.PENDING ∧
    idealPools.commitTransaction busyManager.calls 1 = true ∧
    (commitTransaction idealPools 7 busyManager).2.m_thread_transactions.find 7 = none ∧
    (commitTransaction idealPools 7 busyManager).1 = true ∧
    (commitTransaction idealPools 7 busyManager).2.calls
      = [PoolCall.beginTransaction 1, PoolCall.registerTransaction ⟨0, 7⟩ 1,
          PoolCall.commitTransaction 1 true, PoolCall.endTransaction 1] ∧
    endCount 1 (commitTransaction idealPools 7 busyManager).2.calls = 1 ∧
    (commitTransaction idealPools 7 busyManager).2.m_pending_transactions = 0 := by
  have h := commitTransaction_contract idealPools 7 busyManager 1 (by decide) (by decide)
    (by decide)
  have h3 := h.2.2 rfl
  exact ⟨by decide, by decide, by decide, rfl, h.1, h3.1, h3.2.1, h3.2.2.1, h3.2.2.2⟩

/-- Appending a begin that returned a node, its registration, a terminal call and the
end of the node leaves the number of outstanding transaction nodes as it was. -/
theorem outstanding_round_trip (h : List PoolCall) (node : Ptr) (id : TransactionId)
    (c : PoolCall) (hnode : node ≠ nullptr)
    (hc : c = PoolCall.commitTransaction node true ∨ c = PoolCall.rollbackTransaction node true) :
    outstandingTransactions
      (h ++ [PoolCall.beginTransaction node, PoolCall.registerTransaction id node] ++
        [c, PoolCall.endTransaction node]) = outstandingTransactions h := by
  rcases hc with hc | hc <;>
    simp [outstandingTransactions, begunCount, endedCount, List.filter_append, hc, hnode]

/-- C4: in a RUNNING state where thread `T` has no open transaction and the pool's begin
supplies a node, `beginTransaction` by `T` returns true; if the node is PENDING and the
pool's commit succeeds, the following `commitTransaction` by `T` returns true, and if the
pool's rollback succeeds, the following `rollbackTransaction` by `T` returns true; either
way the node is ended exactly once and the state is the one before the begin (same
thread-transaction map, same pending count, same number of outstanding pool nodes) but
for the four calls added to the history. -/
theorem begin_terminate_round_trip (P : Pools) (T : ThreadId) (s : tradingManager)
    (hrun : s.m_status = Status.RUNNING) (hfree : s.m_thread_transactions.find T = none)
    (hnode : P.beginTransaction s.calls ≠ nullptr) :
    (beginTransaction P T s).1 = true ∧
    (P.status (historyAfterBegin P T s) (P.beginTransaction s.calls)
        = transactionStatus.PENDING →
      P.commitTransaction (historyAfterBegin P T s) (P.beginTransaction s.calls) = true →
      (commitTransaction P T (beginTransaction P T s).2).1 = true ∧
      (commitTransaction P T (beginTransaction P T s).2).2 =
        { s with calls := historyAfterBegin P T s ++
            [PoolCall.commitTransaction (P.beginTransaction s.calls) true,
              PoolCall.endTransaction (P.beginTransaction s.calls)] } ∧
      endCount (P.beginTransaction s.calls) (commitTransaction P T (beginTransaction P T s).2).2.calls
        = endCount (P.beginTransaction s.calls) s.calls + 1 ∧
      (commitTransaction P T (beginTransaction P T s).2).2.m_thread_transactions
        = s.m_thread_transactions ∧
      (commitTransaction P T (beginTransaction P T s).2).2.m_pending_transactions
        = s.m_pending_transactions ∧
      outstandingTransactions (commitTransaction P T (beginTransaction P T s).2).2.calls
        = outstandingTransactions s.calls) ∧
    (P.rollbackTransaction (historyAfterBegin P T s) (P.beginTransaction s.calls) = true →
      (rollbackTransaction P T (beginTransaction P T s).2).1 = true ∧
      (rollbackTransaction P T (beginTransaction P T s).2).2 =
        { s with calls := historyAfterBegin P T s ++
            [PoolCall.rollbackTransaction (P.beginTransaction s.calls) true,
              PoolCall.endTransaction (P.beginTransaction s.calls)] } ∧
      endCount (P.beginTransaction s.calls)
          (rollbackTransaction P T (beginTransaction P T s).2).2.calls
        = endCount (P.beginTransaction s.calls) s.calls + 1 ∧
      (rollbackTransaction P T (beginTransaction P T s).2).2.m_thread_transactions
        = s.m_thread_transactions ∧
      (rollbackTransaction P T (beginTransaction P T s).2).2.m_pending_transactions
        = s.m_pending_transactions ∧
      outstandingTransactions (rollbackTransaction P T (beginTransaction P T s).2).2.calls
        = outstandingTransactions s.calls) := by
  rw [beginTransaction_success P T s hrun hfree hnode]
  refine ⟨rfl, fun hpending hcommit => ?_, fun hrollback => ?_⟩
  · rw [commitTransaction_pending P T _ (P.beginTransaction s.calls)
      (find_assign_self _ _ _) hnode hpending]
    simp only [hcommit, if_true, erase_assign _ _ _ hfree, Nat.add_sub_cancel]
    refine ⟨trivial, trivial, ?_, trivial, trivial, ?_⟩
    · simp [historyAfterBegin, endCount, List.count_cons, List.count_append]
    · exact outstanding_round_trip s.calls _ _ _ hnode (Or.inl rfl)
  · rw [rollbackTransaction_found P T _ (P.beginTransaction s.calls)
      (find_assign_self _ _ _) hnode]
    simp only [hrollback, if_true, erase_assign _ _ _ hfree, Nat.add_sub_cancel]
    refine ⟨trivial, trivial, ?_, trivial, trivial, ?_⟩
    · simp [historyAfterBegin, endCount, List.count_cons, List.count_append]
    · exact outstanding_round_trip s.calls _ _ _ hnode (Or.inr rfl)

/-- Witness of C4: thread 7 begins and then commits, or rolls back, on a freshly started
manager with pools that never fail. -/
theorem begin_terminate_round_trip_witness :
    runningManager.m_status = Status.RUNNING ∧
    runningManager.m_thread_transactions.find 7 = none ∧
    idealPools.beginTransaction runningManager.calls ≠ nullptr ∧
    (beginTransaction idealPools 7 runningManager).1 = true ∧
    (commitTransaction idealPools 7 (beginTransaction idealPools 7 runningManager).2).1 = true ∧
    (commitTransaction idealPools 7 (beginTransaction idealPools 7 runningManager).2).2 =
      { runningManager with calls :=
          [PoolCall.beginTransaction 1, PoolCall.registerTransaction ⟨0, 7⟩ 1,
            PoolCall.commitTransaction 1 true, PoolCall.endTransaction 1] } ∧
    (rollbackTransaction idealPools 7 (beginTransaction idealPools 7 runningManager).2).1 = true ∧
    (rollbackTransaction idealPools 7 (beginTransaction idealPools 7 runningManager).2).2 =
      { runningManager with calls :=
          [PoolCall.beginTransaction 1, PoolCall.registerTransaction ⟨0, 7⟩ 1,
            PoolCall.rollbackTransaction 1 true, PoolCall.endTransaction 1] } := by
  have h := begin_terminate_round_trip idealPools 7 runningManager rfl rfl (by decide)
  have hc := h.2.1 (by decide) rfl
  have hr := h.2.2 rfl
  exact ⟨rfl, rfl, by decide, h.1, hc.1, hc.2.1, hr.1, hr.2.1⟩

/-! ### Order atomicity (C1) -/

theorem transactionStep_refl (s : tradingManager) : TransactionStep s s :=
  ⟨[], by simp, by simp, rfl, rfl, rfl, rfl⟩

theorem beginTransaction_step (P : Pools) (T : ThreadId) (s : tradingManager) :
    TransactionStep s (beginTransaction P T s).2 := by
  unfold beginTransaction
  split_ifs with h1 h2
  · exact transactionStep_refl s
  · exact transactionStep_refl s
  · by_cases h3 : P.beginTransaction s.calls = nullptr
    · simp only [h3, if_true]
      exact ⟨[PoolCall.beginTransaction nullptr],
        by simp [PoolCall.isTransactionCall], by simp [tradingManager.call, h3], rfl, rfl, rfl, rfl⟩
    · simp only [h3, if_false]
      exact ⟨[PoolCall.beginTransaction (P.beginTransaction s.calls),
          PoolCall.registerTransaction ⟨s.m_pending_transactions, T⟩ (P.beginTransaction s.calls)],
        by simp [PoolCall.isTransactionCall], by simp [tradingManager.call], rfl, rfl, rfl, rfl⟩

theorem decrementPending_step (s : tradingManager) :
    (decrementPending s).calls = s.calls ∧
    (decrementPending s).m_active_orders = s.m_active_orders ∧
    (decrementPending s).m_config = s.m_config ∧
    (decrementPending s).m_status = s.m_status ∧
    (decrementPending s).m_metrics = s.m_metrics := by
  unfold decrementPending
  split_ifs <;> exact ⟨rfl, rfl, rfl, rfl, rfl⟩

theorem commitTransaction_step (P : Pools) (T : ThreadId) (s : tradingManager) :
    TransactionStep s (commitTransaction P T s).2 := by
  unfold commitTransaction
  cases hf : s.m_thread_transactions.find T with
  | none => exact transactionStep_refl s
  | some node =>
    simp only
    split_ifs with h1 h2
    · exact ⟨[], by simp, by simp, rfl, rfl, rfl, rfl⟩
    · obtain ⟨e1, e2, e3, e4, e5⟩ := decrementPending_step
        (({ s with m_thread_transactions := s.m_thread_transactions.erase T }.call
          (PoolCall.commitTransaction node
            (P.commitTransaction s.calls node))).call (PoolCall.endTransaction node))
      refine ⟨[PoolCall.commitTransaction node (P.commitTransaction s.calls node),
        PoolCall.endTransaction node], by simp [PoolCall.isTransactionCall], ?_, ?_, ?_, ?_, ?_⟩
      · rw [e1]; simp [tradingManager.call]
      · rw [e2]; rfl
      · rw [e3]; rfl
      · rw [e4]; rfl
      · rw [e5]; rfl
    · exact ⟨[PoolCall.commitTransaction node (P.commitTransaction s.calls node)],
        by simp [PoolCall.isTransactionCall], by simp [tradingManager.call], rfl, rfl, rfl, rfl⟩

theorem rollbackTransaction_step (P : Pools) (T : ThreadId) (s : tradingManager) :
    TransactionStep s (rollbackTransaction P T s).2 := by
  unfold rollbackTransaction
  cases hf : s.m_thread_transactions.find T with
  | none => simpa [nullptr] using transactionStep_refl s
  | some node =>
    simp only
    split_ifs with h1 h2
    · exact ⟨[], by simp, by simp, rfl, rfl, rfl, rfl⟩
    · obtain ⟨e1, e2, e3, e4, e5⟩ := decrementPending_step
        (({ s with m_thread_transactions := s.m_thread_transactions.erase T }.call
          (PoolCall.rollbackTransaction node
            (P.rollbackTransaction s.calls node))).call (PoolCall.endTransaction node))
      refine ⟨[PoolCall.rollbackTransaction node (P.rollbackTransaction s.calls node),
        PoolCall.endTransaction node], by simp [PoolCall.isTransactionCall], ?_, ?_, ?_, ?_, ?_⟩
      · rw [e1]; simp [tradingManager.call]
      · rw [e2]; rfl
      · rw [e3]; rfl
      · rw [e4]; rfl
      · rw [e5]; rfl
    · exact ⟨[PoolCall.rollbackTransaction node (P.rollbackTransaction s.calls node)],
        by simp [PoolCall.isTransactionCall], by simp [tradingManager.call], rfl, rfl, rfl, rfl⟩

/-- Transaction calls allocate no order node. -/
theorem allocateOrder_not_mem (added : List PoolCall)
    (h : ∀ c ∈ added, c.isTransactionCall = true) (node : Ptr) :
    PoolCall.allocateOrder node ∉ added := fun hm => by
  have := h _ hm
  simp [PoolCall.isTransactionCall] at this

/-- Transaction calls deallocate no order node. -/
theorem count_deallocateOrder (added : List PoolCall)
    (h : ∀ c ∈ added, c.isTransactionCall = true) (node : Ptr) :
    added.count (PoolCall.deallocateOrder node) = 0 := by
  rw [List.count_eq_zero]
  intro hm
  have := h _ hm
  simp [PoolCall.isTransactionCall] at this

theorem call_calls (s : tradingManager) (c : PoolCall) : (s.call c).calls = s.calls ++ [c] := rfl

theorem call_config (s : tradingManager) (c : PoolCall) : (s.call c).m_config = s.m_config := rfl

theorem call_active_orders (s : tradingManager) (c : PoolCall) :
    (s.call c).m_active_orders = s.m_active_orders := rfl

theorem updateMetrics_active_orders (latency : ℚ) (s : tradingManager) :
    (updateMetrics latency s).m_active_orders = s.m_active_orders := rfl

/-- The handler of `submitOrder` deallocates the node once and leaves the active-order
count as it was. -/
theorem submitOrderCatch_step (P : Pools) (T : ThreadId) (node : Ptr) (s : tradingManager) :
    (submitOrderCatch P T node s).1 = false ∧
    (submitOrderCatch P T node s).2.m_active_orders = s.m_active_orders ∧
    ∃ added : List PoolCall, (∀ c ∈ added, c.isTransactionCall = true) ∧
      (submitOrderCatch P T node s).2.calls
        = s.calls ++ PoolCall.deallocateOrder node :: added := by
  unfold submitOrderCatch
  by_cases hen : s.m_config.enable_transactions = true
  · obtain ⟨a, ha, hc, hact, -⟩ :=
      rollbackTransaction_step P T (s.call (PoolCall.deallocateOrder node))
    simp only [call_config, hen, if_true]
    refine ⟨trivial, ?_, a, ha, ?_⟩
    · rw [hact]; rfl
    · rw [hc, call_calls]; simp
  · simp only [call_config, hen]
    exact ⟨rfl, rfl, [], by simp, by simp [call_calls]⟩

/-- Order atomicity of the handler, entered after the node `q` was allocated, written
and passed to `registerOrder`. -/
theorem submitOrderCatch_atomic (P : Pools) (T : ThreadId) (q : Ptr) (w r : PoolCall)
    (s s4 : tradingManager) (hw : ∀ node, w ≠ PoolCall.allocateOrder node ∧
      w ≠ PoolCall.deallocateOrder node)
    (hr : ∀ node, r ≠ PoolCall.allocateOrder node ∧ r ≠ PoolCall.deallocateOrder node)
    (hc : s4.calls = s.calls ++ [PoolCall.allocateOrder q, w, r])
    (ha : s4.m_active_orders = s.m_active_orders) :
    OrderAtomic s (submitOrderCatch P T q s4) := by
  obtain ⟨h1, h2, a, hta, hca⟩ := submitOrderCatch_step P T q s4
  refine ⟨[PoolCall.allocateOrder q, w, r] ++ PoolCall.deallocateOrder q :: a, ?_,
    Or.inr ⟨h1, h2.trans ha, ?_⟩⟩
  · rw [hca, hc]; simp
  · intro node _ hm
    have hnq : node = q := by
      simp only [List.mem_append, List.mem_cons, List.mem_singleton, List.not_mem_nil,
        or_false] at hm
      rcases hm with (h | h | h) | h | h
      · exact PoolCall.allocateOrder.inj h
      · exact absurd h.symm (hw node).1
      · exact absurd h.symm (hr node).1
      · exact absurd h (by simp)
      · exact absurd h (allocateOrder_not_mem a hta node)
    subst hnq
    have h0 := count_deallocateOrder a hta node
    have hw2 : (w == PoolCall.deallocateOrder node) = false := by simpa using (hw node).2
    have hr2 : (r == PoolCall.deallocateOrder node) = false := by simpa using (hr node).2
    simp [List.count_cons, List.count_append, h0, hw2, hr2]

/-- Order atomicity of the commit step, entered after the node `q` was allocated,
written and registered and the active-order count incremented. -/
theorem submitOrderCommit_atomic (P : Pools) (T : ThreadId) (q : Ptr) (w r : PoolCall)
    (s s6 : tradingManager) (hw : ∀ node, w ≠ PoolCall.allocateOrder node ∧
      w ≠ PoolCall.deallocateOrder node)
    (hr : ∀ node, r ≠ PoolCall.allocateOrder node ∧ r ≠ PoolCall.deallocateOrder node)
    (hc : s6.calls = s.calls ++ [PoolCall.allocateOrder q, w, r])
    (ha : s6.m_active_orders = s.m_active_orders + 1) :
    OrderAtomic s (submitOrderCommit P T q s6) := by
  unfold submitOrderCommit
  cases hen : s6.m_config.enable_transactions
  · simp only [Bool.false_eq_true, if_false]
    exact ⟨_, hc, Or.inl ⟨rfl, ha⟩⟩
  · simp only [if_true]
    obtain ⟨a, hta, hca, haa, -⟩ := commitTransaction_step P T s6
    cases hok : (commitTransaction P T s6).1
    · simp only [Bool.not_false, if_true]
      refine ⟨[PoolCall.allocateOrder q, w, r] ++ a ++ [PoolCall.deallocateOrder q], ?_,
        Or.inr ⟨rfl, ?_, ?_⟩⟩
      · simp [decrementActiveOrders, call_calls, hca, hc]
      · simp [decrementActiveOrders, call_active_orders, haa, ha]
      · intro node _ hm
        have hnq : node = q := by
          simp only [List.mem_append, List.mem_cons, List.mem_singleton, List.not_mem_nil,
            or_false] at hm
          rcases hm with ((h | h | h) | h) | h
          · exact PoolCall.allocateOrder.inj h
          · exact absurd h.symm (hw node).1
          · exact absurd h.symm (hr node).1
          · exact absurd h (allocateOrder_not_mem a hta node)
          · exact absurd h (by simp)
        subst hnq
        have h0 := count_deallocateOrder a hta node
        have hw2 : (w == PoolCall.deallocateOrder node) = false := by simpa using (hw node).2
        have hr2 : (r == PoolCall.deallocateOrder node) = false := by simpa using (hr node).2
        simp [List.count_cons, List.count_append, h0, hw2, hr2]
    · simp only [Bool.not_true, Bool.false_eq_true, if_false]
      refine ⟨[PoolCall.allocateOrder q, w, r] ++ a, ?_, Or.inl ⟨rfl, haa.trans ha⟩⟩
      rw [hca, hc]; simp

/-- Order atomicity of the part of `submitOrder` that follows the begin. -/
theorem submitOrderBody_atomic (P : Pools) (T : ThreadId) (latency : Int) (ord : order)
    (s : tradingManager) : OrderAtomic s (submitOrderBody P T latency ord s) := by
  unfold submitOrderBody
  simp only
  by_cases hq : P.allocateOrder s.calls = nullptr
  · simp only [hq, if_true, call_config]
    cases hen : s.m_config.enable_transactions
    · simp only [Bool.false_eq_true, if_false]
      refine ⟨[PoolCall.allocateOrder nullptr], rfl, Or.inr ⟨rfl, rfl, ?_⟩⟩
      intro node hnode hm
      exact absurd (PoolCall.allocateOrder.inj (List.mem_singleton.1 hm)) hnode
    · obtain ⟨a, ha, hc, hact, -⟩ :=
        rollbackTransaction_step P T (s.call (PoolCall.allocateOrder nullptr))
      simp only [if_true]
      refine ⟨PoolCall.allocateOrder nullptr :: a, ?_, Or.inr ⟨rfl, ?_, ?_⟩⟩
      · rw [hc, call_calls]; simp
      · rw [hact]; rfl
      · intro node hnode hm
        rcases List.mem_cons.1 hm with h | h
        · exact absurd (PoolCall.allocateOrder.inj h) hnode
        · exact absurd h (allocateOrder_not_mem a ha node)
  · simp only [hq, if_false]
    generalize hs3 : (s.call (PoolCall.allocateOrder (P.allocateOrder s.calls))).call
      (PoolCall.writeOrder (P.allocateOrder s.calls) ord.price ord.quantity) = s3
    have hs3c : s3.calls = s.calls ++ [PoolCall.allocateOrder (P.allocateOrder s.calls),
        PoolCall.writeOrder (P.allocateOrder s.calls) ord.price ord.quantity] := by
      subst hs3; simp [call_calls]
    have hs3a : s3.m_active_orders = s.m_active_orders := by subst hs3; rfl
    generalize P.registerOrderThrows s3.calls ord.order_id (P.allocateOrder s.calls) = threw
    generalize hs4 : s3.call (PoolCall.registerOrder ord.order_id (P.allocateOrder s.calls) threw)
      = s4
    have hs4c : s4.calls = s.calls ++ [PoolCall.allocateOrder (P.allocateOrder s.calls),
        PoolCall.writeOrder (P.allocateOrder s.calls) ord.price ord.quantity,
        PoolCall.registerOrder ord.order_id (P.allocateOrder s.calls) threw] := by
      subst hs4; simp [call_calls, hs3c]
    have hs4a : s4.m_active_orders = s.m_active_orders := by subst hs4; exact hs3a
    have hcatch : OrderAtomic s (submitOrderCatch P T (P.allocateOrder s.calls) s4) :=
      submitOrderCatch_atomic P T _ _ _ s s4 (fun _ => ⟨by simp, by simp⟩)
        (fun _ => ⟨by simp, by simp⟩) hs4c hs4a
    cases threw
    · simp only [Bool.false_eq_true, if_false]
      unfold updateOrderBook
      by_cases hsym : ord.symbol = ""
      · simp only [hsym, if_true]; exact hcatch
      · simp only [hsym, if_false]
        exact submitOrderCommit_atomic P T _ _ _ s _ (fun _ => ⟨by simp, by simp⟩)
          (fun _ => ⟨by simp, by simp⟩) hs4c (by simp [incrementActiveOrders,
            updateMetrics_active_orders, hs4a])
    · simp only [if_true]; exact hcatch

/-- C1: after `submitOrder` returns, either it returned true and the active-order count
is exactly one more than before, or it returned false, the active-order count is what it
was, and every order node the call obtained from the order pool was deallocated exactly
once by the call (whether allocation failed, registration or the refresh threw, or the
commit failed after the count was incremented). `added` is the list of allocator calls
made by this call. -/
theorem submitOrder_atomic (P : Pools) (T : ThreadId) (latency : Int) (ord : order)
    (s : tradingManager) :
    ∃ added : List PoolCall,
      (submitOrder P T latency ord s).2.calls = s.calls ++ added ∧
      (((submitOrder P T latency ord s).1 = true ∧
          (submitOrder P T latency ord s).2.m_active_orders = s.m_active_orders + 1) ∨
        ((submitOrder P T latency ord s).1 = false ∧
          (submitOrder P T latency ord s).2.m_active_orders = s.m_active_orders ∧
          ∀ node, node ≠ nullptr → PoolCall.allocateOrder node ∈ added →
            added.count (PoolCall.deallocateOrder node) = 1)) := by
  show OrderAtomic s (submitOrder P T latency ord s)
  have hnone : ∀ t : tradingManager, TransactionStep s t → OrderAtomic s (false, t) := by
    rintro t ⟨a, hta, hca, haa, -⟩
    exact ⟨a, hca, Or.inr ⟨rfl, haa, fun node _ hm => absurd hm (allocateOrder_not_mem a hta node)⟩⟩
  unfold submitOrder
  by_cases h1 : s.m_status ≠ Status.RUNNING
  · rw [if_pos h1]; exact hnone s (transactionStep_refl s)
  rw [if_neg h1]
  by_cases h2 : (!validateOrder ord) = true
  · rw [if_pos h2]; exact hnone s (transactionStep_refl s)
  rw [if_neg h2]
  simp only
  have hstep : TransactionStep s
      (if s.m_config.enable_transactions = true then beginTransaction P T s else (true, s)).2 := by
    split_ifs
    · exact beginTransaction_step P T s
    · exact transactionStep_refl s
  generalize (if s.m_config.enable_transactions = true then beginTransaction P T s
    else (true, s)) = begun at hstep ⊢
  cases hb : begun.1
  · simp only [Bool.not_false, if_true]
    exact hnone _ hstep
  · simp only [Bool.not_true, Bool.false_eq_true, if_false]
    obtain ⟨a, hta, hca, haa, -⟩ := hstep
    obtain ⟨b, hcb, hb⟩ := submitOrderBody_atomic P T latency ord begun.2
    refine ⟨a ++ b, by rw [hcb, hca, List.append_assoc], ?_⟩
    rcases hb with ⟨hb1, hb2⟩ | ⟨hb1, hb2, hb3⟩
    · exact Or.inl ⟨hb1, by rw [hb2, haa]⟩
    · refine Or.inr ⟨hb1, by rw [hb2, haa], fun node hnode hm => ?_⟩
      rw [List.count_append, count_deallocateOrder a hta node, Nat.zero_add]
      rcases List.mem_append.1 hm with h | h
      · exact absurd h (allocateOrder_not_mem a hta node)
      · exact hb3 node hnode h

/-- Witness of C1: the order A1 submitted by thread 7 to a freshly started manager whose
transaction pool refuses the commit. The call returns false, the active-order count is
back to 0 and the order node 3 is deallocated once. -/
theorem submitOrder_atomic_witness :
    (submitOrder refusingPools 7 3 orderA1 runningManager).1 = false ∧
    (submitOrder refusingPools 7 3 orderA1 runningManager).2.calls =
      [PoolCall.beginTransaction 1, PoolCall.registerTransaction ⟨0, 7⟩ 1,
        PoolCall.allocateOrder 3, PoolCall.writeOrder 3 10 5,
        PoolCall.registerOrder "A1" 3 false, PoolCall.commitTransaction 1 false,
        PoolCall.deallocateOrder 3] ∧
    (submitOrder refusingPools 7 3 orderA1 runningManager).2.m_active_orders = 0 ∧
    ∃ added : List PoolCall,
      (submitOrder refusingPools 7 3 orderA1 runningManager).2.calls
        = runningManager.calls ++ added ∧
      (((submitOrder refusingPools 7 3 orderA1 runningManager).1 = true ∧
          (submitOrder refusingPools 7 3 orderA1 runningManager).2.m_active_orders
            = runningManager.m_active_orders + 1) ∨
        ((submitOrder refusingPools 7 3 orderA1 runningManager).1 = false ∧
          (submitOrder refusingPools 7 3 orderA1 runningManager).2.m_active_orders
            = runningManager.m_active_orders ∧
          ∀ node, node ≠ nullptr → PoolCall.allocateOrder node ∈ added →
            added.count (PoolCall.deallocateOrder node) = 1)) :=
  ⟨by decide, by decide, by decide, submitOrder_atomic refusingPools 7 3 orderA1 runningManager⟩

/-! ### Successful submission (C9) -/

/-- The state in which a fully successful transactional `submitOrder` leaves the manager:
the refresh of the order book recorded its latency, the active-order count grew by one,
and the history gained the seven allocator calls of the submission. -/
theorem submitOrder_success (P : Pools) (T : ThreadId) (latency : Int) (ord : order)
    (s : tradingManager) (hrun : s.m_status = Status.RUNNING)
    (hvalid : validateOrder ord = true)
    (henable : s.m_config.enable_transactions = true)
    (hfree : s.m_thread_transactions.find T = none)
    (hnode : P.beginTransaction s.calls ≠ nullptr)
    (horder : P.allocateOrder (historyAfterBegin P T s) ≠ nullptr)
    (hregister : P.registerOrderThrows (historyAfterAllocate P ord (historyAfterBegin P T s))
      ord.order_id (P.allocateOrder (historyAfterBegin P T s)) = false)
    (hpending : P.status (historyAfterRegister P ord (historyAfterBegin P T s))
      (P.beginTransaction s.calls) = transactionStatus.PENDING)
    (hcommit : P.commitTransaction (historyAfterRegister P ord (historyAfterBegin P T s))
      (P.beginTransaction s.calls) = true) :
    submitOrder P T latency ord s =
      (true,
        { updateMetrics (latency : ℚ) s with
          m_active_orders := s.m_active_orders + 1
          calls := historyAfterRegister P ord (historyAfterBegin P T s) ++
            [PoolCall.commitTransaction (P.beginTransaction s.calls) true,
              PoolCall.endTransaction (P.beginTransaction s.calls)] }) := by
  have hsym : ord.symbol ≠ "" := ((validateOrder_iff ord).1 hvalid).2.1
  unfold submitOrder
  rw [if_neg (by simp [hrun]), if_neg (by simp [hvalid])]
  simp only [henable, if_true, beginTransaction_success P T s hrun hfree hnode]
  unfold submitOrderBody
  simp only [Bool.not_true, Bool.false_eq_true, if_false, call_calls]
  have e1 : historyAfterBegin P T s ++
      [PoolCall.allocateOrder (P.allocateOrder (historyAfterBegin P T s))] ++
      [PoolCall.writeOrder (P.allocateOrder (historyAfterBegin P T s)) ord.price ord.quantity]
      = historyAfterAllocate P ord (historyAfterBegin P T s) := by
    simp [historyAfterAllocate]
  rw [if_neg horder, e1, hregister]
  simp only [Bool.false_eq_true, if_false, updateOrderBook, hsym]
  unfold submitOrderCommit
  have hcfg : (incrementActiveOrders (updateMetrics (latency : ℚ)
      (((({ s with
          calls := historyAfterBegin P T s
          m_thread_transactions := s.m_thread_transactions.assign T (P.beginTransaction s.calls)
          m_pending_transactions := s.m_pending_transactions + 1 } : tradingManager).call
        (PoolCall.allocateOrder (P.allocateOrder (historyAfterBegin P T s)))).call
        (PoolCall.writeOrder (P.allocateOrder (historyAfterBegin P T s)) ord.price
          ord.quantity)).call
        (PoolCall.registerOrder ord.order_id (P.allocateOrder (historyAfterBegin P T s))
          false)))).m_config.enable_transactions = true := henable
  rw [if_pos hcfg]
  rw [commitTransaction_pending P T _ (P.beginTransaction s.calls)
    (by exact find_assign_self _ _ _) hnode
    (by simpa [incrementActiveOrders, updateMetrics, tradingManager.call, historyAfterRegister,
      historyAfterAllocate] using hpending)]
  have hc : P.commitTransaction (incrementActiveOrders (updateMetrics (latency : ℚ)
      (((({ s with
          calls := historyAfterBegin P T s
          m_thread_transactions := s.m_thread_transactions.assign T (P.beginTransaction s.calls)
          m_pending_transactions := s.m_pending_transactions + 1 } : tradingManager).call
        (PoolCall.allocateOrder (P.allocateOrder (historyAfterBegin P T s)))).call
        (PoolCall.writeOrder (P.allocateOrder (historyAfterBegin P T s)) ord.price
          ord.quantity)).call
        (PoolCall.registerOrder ord.order_id (P.allocateOrder (historyAfterBegin P T s))
          false)))).calls (P.beginTransaction s.calls) = true := by
    simpa [incrementActiveOrders, updateMetrics, tradingManager.call, historyAfterRegister,
      historyAfterAllocate] using hcommit
  simp only [hc, if_true, Bool.not_true, Bool.false_eq_true, if_false]
  simp [incrementActiveOrders, updateMetrics, tradingManager.call, historyAfterRegister,
    historyAfterAllocate, erase_assign _ _ _ hfree]

/-- C9: a valid order submitted by thread `T` to a RUNNING manager with transactions
enabled, where `T` has no open transaction, the transaction pool supplies a PENDING node
and accepts its commit, and the order pool supplies a node and registers it without
throwing: `submitOrder` returns true; the order node is written with the price and the
quantity of the order and registered under its identifier; the transaction is committed
and ended; the active-order count is one more than before; the pending count and the
thread-transaction map are what they were. -/
theorem submitOrder_succeeds (P : Pools) (T : ThreadId) (latency : Int) (ord : order)
    (s : tradingManager) (hrun : s.m_status = Status.RUNNING)
    (hid : ord.order_id ≠ "") (hsymbol : ord.symbol ≠ "")
    (hprice : 0 < ord.price) (hquantity : 0 < ord.quantity)
    (henable : s.m_config.enable_transactions = true)
    (hfree : s.m_thread_transactions.find T = none)
    (hnode : P.beginTransaction s.calls ≠ nullptr)
    (horder : P.allocateOrder (historyAfterBegin P T s) ≠ nullptr)
    (hregister : P.registerOrderThrows (historyAfterAllocate P ord (historyAfterBegin P T s))
      ord.order_id (P.allocateOrder (historyAfterBegin P T s)) = false)
    (hpending : P.status (historyAfterRegister P ord (historyAfterBegin P T s))
      (P.beginTransaction s.calls) = transactionStatus.PENDING)
    (hcommit : P.commitTransaction (historyAfterRegister P ord (historyAfterBegin P T s))
      (P.beginTransaction s.calls) = true) :
    (submitOrder P T latency ord s).1 = true ∧
    (submitOrder P T latency ord s).2.calls = s.calls ++
      [PoolCall.beginTransaction (P.beginTransaction s.calls),
        PoolCall.registerTransaction ⟨s.m_pending_transactions, T⟩ (P.beginTransaction s.calls),
        PoolCall.allocateOrder (P.allocateOrder (historyAfterBegin P T s)),
        PoolCall.writeOrder (P.allocateOrder (historyAfterBegin P T s)) ord.price ord.quantity,
        PoolCall.registerOrder ord.order_id (P.allocateOrder (historyAfterBegin P T s)) false,
        PoolCall.commitTransaction (P.beginTransaction s.calls) true,
        PoolCall.endTransaction (P.beginTransaction s.calls)] ∧
    (submitOrder P T latency ord s).2.m_active_orders = s.m_active_orders + 1 ∧
    (s.m_active_orders = 0 → (submitOrder P T latency ord s).2.m_active_orders = 1) ∧
    (submitOrder P T latency ord s).2.m_pending_transactions = s.m_pending_transactions ∧
    (submitOrder P T latency ord s).2.m_thread_transactions = s.m_thread_transactions := by
  rw [submitOrder_success P T latency ord s hrun
    ((validateOrder_iff ord).2 ⟨hid, hsymbol, hprice, hquantity⟩) henable hfree hnode horder
    hregister hpending hcommit]
  refine ⟨rfl, ?_, rfl, fun h0 => ?_, rfl, rfl⟩
  · simp [historyAfterRegister, historyAfterAllocate, historyAfterBegin]
  · simp [h0]

/-- Witness of C9: scenario 3 of the specification, the order A1 submitted by thread 7 to
a freshly started manager; the active-order count becomes 1. -/
theorem submitOrder_succeeds_witness :
    runningManager.m_status = Status.RUNNING ∧
    orderA1.order_id ≠ "" ∧ orderA1.symbol ≠ "" ∧ 0 < orderA1.price ∧ 0 < orderA1.quantity ∧
    runningManager.m_config.enable_transactions = true ∧
    runningManager.m_thread_transactions.find 7 = none ∧
    (submitOrder idealPools 7 3 orderA1 runningManager).1 = true ∧
    (submitOrder idealPools 7 3 orderA1 runningManager).2.calls =
      [PoolCall.beginTransaction 1, PoolCall.registerTransaction ⟨0, 7⟩ 1,
        PoolCall.allocateOrder 3, PoolCall.writeOrder 3 10 5,
        PoolCall.registerOrder "A1" 3 false, PoolCall.commitTransaction 1 true,
        PoolCall.endTransaction 1] ∧
    (submitOrder idealPools 7 3 orderA1 runningManager).2.m_active_orders = 1 ∧
    (submitOrder idealPools 7 3 orderA1 runningManager).2.m_pending_transactions = 0 ∧
    (submitOrder idealPools 7 3 orderA1 runningManager).2.m_thread_transactions = [] := by
  have h := submitOrder_succeeds idealPools 7 3 orderA1 runningManager rfl (by decide)
    (by decide) (by decide) (by decide) rfl rfl (by decide) (by decide)
    rfl (by decide) rfl
  exact ⟨rfl, by decide, by decide, by decide, by decide, rfl, rfl,
    h.1, h.2.1, h.2.2.1, h.2.2.2.2.1, h.2.2.2.2.2⟩

/-! ### Running mean (C10) -/

theorem recordLatencies_cons (latency : ℚ) (rest : List ℚ) (s : tradingManager) :
    recordLatencies (latency :: rest) s = recordLatencies rest (updateMetrics latency s) := rfl

/-- One `updateMetrics` keeps `average * count` equal to the sum of the latencies. -/
theorem updateMetrics_mean (latency : ℚ) (s : tradingManager) :
    (updateMetrics latency s).m_metrics.order_count = s.m_metrics.order_count + 1 ∧
    (updateMetrics latency s).m_metrics.avg_latency * ((s.m_metrics.order_count : ℚ) + 1)
      = s.m_metrics.avg_latency * (s.m_metrics.order_count : ℚ) + latency := by
  refine ⟨rfl, ?_⟩
  have hpos : ((s.m_metrics.order_count : ℚ) + 1) ≠ 0 := by positivity
  simp only [updateMetrics, Nat.cast_add, Nat.cast_one]
  field_simp
  ring

/-- The invariant of the running mean over a sequence of `updateMetrics` calls. -/
theorem recordLatencies_mean (latencies : List ℚ) (s : tradingManager) :
    (recordLatencies latencies s).m_metrics.order_count
      = s.m_metrics.order_count + latencies.length ∧
    (recordLatencies latencies s).m_metrics.avg_latency
        * ((s.m_metrics.order_count : ℚ) + (latencies.length : ℚ))
      = s.m_metrics.avg_latency * (s.m_metrics.order_count : ℚ) + latencies.sum := by
  induction latencies generalizing s with
  | nil => simp [recordLatencies]
  | cons latency rest ih =>
    obtain ⟨hcount, hmean⟩ := updateMetrics_mean latency s
    obtain ⟨ih1, ih2⟩ := ih (updateMetrics latency s)
    rw [recordLatencies_cons]
    constructor
    · rw [ih1, hcount, List.length_cons]; omega
    · rw [hcount] at ih2
      simp only [List.length_cons, List.sum_cons, Nat.cast_add, Nat.cast_one] at ih2 ⊢
      rw [hmean] at ih2
      linarith

/-- C10: in exact arithmetic, starting from reset metrics (average 0, order count 0),
after `updateMetrics(L1)`, ..., `updateMetrics(Ln)` with `n ≥ 1` the stored average latency
is `(L1 + ... + Ln) / n` and the stored order count is `n`. -/
theorem running_mean_correct (latencies : List ℚ) (s : tradingManager)
    (havg : s.m_metrics.avg_latency = 0) (hcount : s.m_metrics.order_count = 0)
    (hne : latencies ≠ []) :
    (recordLatencies latencies s).m_metrics.avg_latency
      = latencies.sum / (latencies.length : ℚ) ∧
    (recordLatencies latencies s).m_metrics.order_count = latencies.length := by
  obtain ⟨h1, h2⟩ := recordLatencies_mean latencies s
  rw [havg, hcount] at h2
  rw [hcount] at h1
  have hlen : (latencies.length : ℚ) ≠ 0 := by
    have : latencies.length ≠ 0 := fun h => hne (List.length_eq_zero.1 h)
    exact_mod_cast this
  refine ⟨?_, by simpa using h1⟩
  rw [eq_div_iff hlen]
  simpa using h2

/-- Witness of C10: the latencies 2, 4 and 9 recorded on a fresh manager give the
average 5 and the order count 3. -/
theorem running_mean_correct_witness :
    freshManager.m_metrics.avg_latency = 0 ∧ freshManager.m_metrics.order_count = 0 ∧
    ([2, 4, 9] : List ℚ) ≠ [] ∧
    (recordLatencies [2, 4, 9] freshManager).m_metrics.avg_latency = 5 ∧
    (recordLatencies [2, 4, 9] freshManager).m_metrics.order_count = 3 := by
  have h := running_mean_correct [2, 4, 9] freshManager rfl rfl (by decide)
  refine ⟨rfl, rfl, by decide, ?_, h.2⟩
  rw [h.1]
  norm_num

/-! ### The retry loop (C11, C20) -/

/-- The loop unfolds into its test and one iteration. -/
theorem casLoop_unfold (latency current_max m_max_latency : ℚ) (attempts : Nat) :
    casLoop latency current_max m_max_latency attempts =
      if latency > current_max then
        casLoop latency (casStep latency (current_max, m_max_latency)).1
          (casStep latency (current_max, m_max_latency)).2 (attempts + 1)
      else (m_max_latency, attempts) := by
  rw [casLoop]
  by_cases h : latency > current_max
  · by_cases h2 : m_max_latency = current_max
    · simp [h, h2, casStep]
    · simp [h, h2, casStep]
  · simp [h]

/-- The loop entered right after the load `current_max = m_max_latency.load()`: no
exchange when `latency` does not exceed the maximum, and otherwise two exchanges, the
one that stores `latency` and the one that reloads `current_max`. -/
theorem casLoop_after_load (latency m_max_latency : ℚ) (attempts : Nat) :
    casLoop latency m_max_latency m_max_latency attempts =
      if latency > m_max_latency then (latency, attempts + 2) else (m_max_latency, attempts) := by
  by_cases h : latency > m_max_latency
  · rw [casLoop, if_pos h, if_pos rfl, casLoop, if_pos h, if_neg (ne_of_gt h), casLoop,
      if_neg (lt_irrefl latency), if_pos h]
  · rw [casLoop, if_neg h, if_neg h]

/-- The maximum stored by `updateMetrics` is the larger of the old maximum and the
latency. -/
theorem updateMetrics_max (latency : ℚ) (s : tradingManager) :
    (updateMetrics latency s).m_max_latency = max s.m_max_latency latency := by
  simp only [updateMetrics, casLoop_after_load]
  by_cases h : latency > s.m_max_latency
  · rw [if_pos h, max_eq_right (le_of_lt h)]
  · rw [if_neg h, max_eq_left (not_lt.1 h)]

/-- The loop in closed form, for any value of `current_max`: the final maximum and the
number of exchanges attempted. -/
theorem casLoop_closed (latency current_max m_max_latency : ℚ) (attempts : Nat) :
    casLoop latency current_max m_max_latency attempts =
      if latency > current_max then
        if m_max_latency = current_max then (latency, attempts + 2)
        else if latency > m_max_latency then (latency, attempts + 3)
        else (m_max_latency, attempts + 1)
      else (m_max_latency, attempts) := by
  by_cases h : latency > current_max
  · by_cases h2 : m_max_latency = current_max
    · subst h2
      rw [casLoop_after_load, if_pos h, if_pos h, if_pos rfl]
    · rw [casLoop, if_pos h, if_neg h2, casLoop_after_load, if_pos h, if_neg h2]
  · rw [casLoop, if_neg h, if_neg h]

/-- One iteration of the loop makes the termination measure smaller. -/
theorem casStep_decreases (latency current_max m_max_latency : ℚ)
    (h : latency > current_max) :
    casMeasure latency (casStep latency (current_max, m_max_latency)).1
        (casStep latency (current_max, m_max_latency)).2
      < casMeasure latency current_max m_max_latency := by
  by_cases h2 : m_max_latency = current_max
  · have h3 : latency ≠ current_max := ne_of_gt h
    simp [casStep, casMeasure, h, h2, h3]
  · by_cases h4 : latency > m_max_latency
    · have h5 : m_max_latency ≠ latency := ne_of_lt h4
      simp [casStep, casMeasure, h, h2, h4, h5]
    · by_cases h5 : m_max_latency = latency
      · subst h5
        have h6 : m_max_latency ≠ current_max := ne_of_gt h
        simp [casStep, casMeasure, h, h6]
      · simp [casStep, casMeasure, h, h2, h4, h5]

/-- C20: with no other writer and an exchange that succeeds whenever the expected value
matches, the retry loop of `updateMetrics` ends. Entered after the load of the current
maximum `m`, it attempts no exchange when the latency does not exceed `m`, and otherwise
attempts exactly two, the exchange that stores the latency and one more that reloads
`current_max`, and leaves the latency as the maximum. For any value of `current_max` it
attempts at most three exchanges, every iteration (`casStep`) making the measure
`casMeasure`, which is at most 3, strictly smaller. -/
theorem retry_loop_terminates (latency m : ℚ) :
    (¬ latency > m → casLoop latency m m 0 = (m, 0)) ∧
    (latency > m → casLoop latency m m 0 = (latency, 2)) ∧
    (∀ current_max attempts, (casLoop latency current_max m attempts).2 ≤ attempts + 3) ∧
    (∀ current_max, casMeasure latency current_max m ≤ 3) ∧
    (∀ current_max, latency > current_max →
      casMeasure latency (casStep latency (current_max, m)).1 (casStep latency (current_max, m)).2
        < casMeasure latency current_max m) ∧
    (∀ current_max attempts, casLoop latency current_max m attempts =
      if latency > current_max then
        casLoop latency (casStep latency (current_max, m)).1
          (casStep latency (current_max, m)).2 (attempts + 1)
      else (m, attempts)) := by
  refine ⟨fun h => ?_, fun h => ?_, fun c a => ?_, fun c => ?_,
    fun c h => casStep_decreases latency c m h, fun c a => casLoop_unfold latency c m a⟩
  · rw [casLoop_after_load, if_neg h]
  · rw [casLoop_after_load, if_pos h]
  · rw [casLoop_closed]
    split_ifs <;> simp
  · unfold casMeasure
    split_ifs <;> omega

/-- Witness of C20: with the maximum at 5, the latency 3 leads to no exchange and the
latency 9 to two exchanges, after which the maximum is 9. -/
theorem retry_loop_terminates_witness :
    casLoop 3 5 5 0 = (5, 0) ∧ casLoop 9 5 5 0 = (9, 2) ∧
    (updateMetrics 9 { freshManager with m_max_latency := 5 }).m_max_latency = 9 := by
  refine ⟨(retry_loop_terminates 3 5).1 (by norm_num), (retry_loop_terminates 9 5).2.1 (by norm_num),
    ?_⟩
  show (casLoop 9 5 5 0).1 = 9
  rw [(retry_loop_terminates 9 5).2.1 (by norm_num)]

/-- The maximum after a sequence of `updateMetrics` calls: it is at least the maximum
before and at least every latency recorded, and it is one of these values. -/
theorem recordLatencies_max (latencies : List ℚ) (s : tradingManager) :
    s.m_max_latency ≤ (recordLatencies latencies s).m_max_latency ∧
    (∀ l ∈ latencies, l ≤ (recordLatencies latencies s).m_max_latency) ∧
    ((recordLatencies latencies s).m_max_latency = s.m_max_latency ∨
      (recordLatencies latencies s).m_max_latency ∈ latencies) := by
  induction latencies generalizing s with
  | nil => simp [recordLatencies]
  | cons latency rest ih =>
    obtain ⟨h1, h2, h3⟩ := ih (updateMetrics latency s)
    rw [recordLatencies_cons]
    rw [updateMetrics_max] at h1 h3
    refine ⟨le_trans (le_max_left _ _) h1, fun l hl => ?_, ?_⟩
    · rcases List.mem_cons.1 hl with h | h
      · rw [h]; exact le_trans (le_max_right _ _) h1
      · exact h2 l h
    · rcases h3 with h | h
      · rcases max_choice s.m_max_latency latency with hm | hm
        · left; rw [h, hm]
        · right; rw [h, hm]; exact List.mem_cons_self _ _
      · right; exact List.mem_cons_of_mem _ h

theorem foldr_max_shift (l a : ℚ) (rest : List ℚ) :
    rest.foldr max (max a l) = max l (rest.foldr max a) := by
  induction rest with
  | nil => simp [max_comm]
  | cons r rest ih => simp only [List.foldr_cons]; rw [ih, max_left_comm]

theorem recordLatencies_max_eq (latencies : List ℚ) (s : tradingManager) :
    (recordLatencies latencies s).m_max_latency = latencies.foldr max s.m_max_latency := by
  induction latencies generalizing s with
  | nil => rfl
  | cons l rest ih =>
    rw [recordLatencies_cons, ih, updateMetrics_max, List.foldr_cons, foldr_max_shift]

theorem recordLatencies_append (first second : List ℚ) (s : tradingManager) :
    recordLatencies (first ++ second) s = recordLatencies second (recordLatencies first s) := by
  simp [recordLatencies, List.foldl_append]

/-- C11: after `updateMetrics(l)` the max latency is the larger of its previous value and
`l`; it never decreases along a sequence of `updateMetrics` calls; and after recording
`L1..Ln` from a state whose max latency is 0 it is the maximum of 0 and `L1..Ln`: at
least 0, at least every `Li`, and equal to 0 or to one of the `Li`. -/
theorem max_latency_monotone (s : tradingManager) :
    (∀ l, (updateMetrics l s).m_max_latency = max s.m_max_latency l) ∧
    (∀ first second : List ℚ,
      (recordLatencies first s).m_max_latency
        ≤ (recordLatencies (first ++ second) s).m_max_latency) ∧
    (∀ latencies : List ℚ, s.m_max_latency = 0 →
      0 ≤ (recordLatencies latencies s).m_max_latency ∧
      (∀ l ∈ latencies, l ≤ (recordLatencies latencies s).m_max_latency) ∧
      ((recordLatencies latencies s).m_max_latency = 0 ∨
        (recordLatencies latencies s).m_max_latency ∈ latencies) ∧
      (recordLatencies latencies s).m_max_latency = latencies.foldr max 0) := by
  refine ⟨fun l => updateMetrics_max l s, fun first second => ?_, fun latencies h0 => ?_⟩
  · rw [recordLatencies_append]
    exact (recordLatencies_max second _).1
  · obtain ⟨h1, h2, h3⟩ := recordLatencies_max latencies s
    rw [h0] at h1 h3
    refine ⟨h1, h2, h3, ?_⟩
    rw [recordLatencies_max_eq, h0]

/-- Witness of C11: the latencies 4, 9 and 2 recorded on a fresh manager leave the max
latency at 9. -/
theorem max_latency_monotone_witness :
    freshManager.m_max_latency = 0 ∧
    (updateMetrics 4 freshManager).m_max_latency = 4 ∧
    (recordLatencies [4, 9, 2] freshManager).m_max_latency = 9 := by
  have h := max_latency_monotone freshManager
  refine ⟨rfl, ?_, ?_⟩
  · rw [h.1 4]; exact max_eq_right (by norm_num [freshManager])
  · rw [(h.2.2 [4, 9, 2] rfl).2.2.2]
    norm_num

/-! ### Construction (C12) -/

/-- C12: construction throws the invalid-configuration error exactly when the maximum
order count or the maximum symbol count is zero; for every other configuration it
yields a manager with status STARTING, order count 0, trade count 0 and average
latency 0. -/
theorem construction_contract (config : Config) :
    (construct config = none ↔ config.max_orders = 0 ∨ config.max_symbols = 0) ∧
    (¬ (config.max_orders = 0 ∨ config.max_symbols = 0) →
      ∃ s, construct config = some s ∧ s.m_config = config ∧
        s.m_status = Status.STARTING ∧ s.m_metrics.order_count = 0 ∧
        s.m_metrics.trade_count = 0 ∧ s.m_metrics.avg_latency = 0) := by
  unfold construct
  by_cases h : config.max_orders = 0 ∨ config.max_symbols = 0
  · simp [h]
  · simp [h, resetMetrics]

/-- Witness of C12: scenario 1 of the specification, `max_orders = 0`, fails; the example
configuration yields the fresh manager. -/
theorem construction_contract_witness :
    construct zeroOrdersConfig = none ∧ construct exampleConfig = some freshManager := by
  refine ⟨(construction_contract zeroOrdersConfig).1.2 (Or.inl rfl), ?_⟩
  obtain ⟨s, hs, -⟩ := (construction_contract exampleConfig).2 (by decide)
  rw [hs]
  exact hs.symm.trans (by decide)

/-! ### Commit and rollback without a transaction (C14) -/

/-- C14: when the calling thread has no entry in the thread-transaction map,
`commitTransaction` and `rollbackTransaction` both return false and leave the state
unchanged: no call to the transaction pool, the same map, the same pending count. -/
theorem terminate_without_transaction (P : Pools) (T : ThreadId) (s : tradingManager)
    (hfree : s.m_thread_transactions.find T = none) :
    commitTransaction P T s = (false, s) ∧ rollbackTransaction P T s = (false, s) := by
  constructor
  · simp [commitTransaction, hfree]
  · simp [rollbackTransaction, hfree]

/-- Witness of C14: thread 8 has no transaction in a manager where thread 7 holds one. -/
theorem terminate_without_transaction_witness :
    busyManager.m_thread_transactions.find 8 = none ∧
    commitTransaction idealPools 8 busyManager = (false, busyManager) ∧
    rollbackTransaction idealPools 8 busyManager = (false, busyManager) :=
  ⟨by decide, terminate_without_transaction idealPools 8 busyManager (by decide)⟩

/-! ### Health (C18) -/

/-- C18: `ishealthy()` returns true exactly when the status is RUNNING, each of the three
pools reports spare capacity and the average latency is strictly below 1000; it is
false in every other status and false when the average latency equals 1000. -/
theorem ishealthy_iff (P : Pools) (s : tradingManager) :
    (ishealthy P s = true ↔
      s.m_status = Status.RUNNING ∧ P.orderHasCapacity s.calls = true ∧
        P.marketDataHasCapacity s.calls = true ∧ P.transactionHasCapacity s.calls = true ∧
        s.m_metrics.avg_latency < 1000) ∧
    (s.m_status ≠ Status.RUNNING → ishealthy P s = false) ∧
    (s.m_metrics.avg_latency = 1000 → ishealthy P s = false) := by
  refine ⟨?_, fun h => ?_, fun h => ?_⟩
  · simp [ishealthy, hasCapacity, and_assoc]
  · simp [ishealthy, h]
  · simp [ishealthy, h]

/-- Witness of C18: the freshly started manager is healthy, the manager that was never
started is not, and an average latency of exactly 1000 is not healthy. -/
theorem ishealthy_iff_witness :
    ishealthy idealPools runningManager = true ∧
    ishealthy idealPools freshManager = false ∧
    ishealthy idealPools
      { runningManager with m_metrics := { resetMetrics with avg_latency := 1000 } } = false := by
  refine ⟨(ishealthy_iff idealPools runningManager).1.2 ⟨rfl, rfl, rfl, rfl, by decide⟩,
    (ishealthy_iff idealPools freshManager).2.1 (by decide),
    (ishealthy_iff idealPools _).2.2 rfl⟩

/-! ### Market data (C17) -/

/-- C17: for every market-data event handled by a RUNNING manager, the symbol being empty
or not: when the market-data pool returns a buffer, the calls made are the allocation
and one deallocation of that buffer, with size `quote_size * buffer_capacity`; when the
pool returns no buffer, the only change of the state is the failed allocation in the
history, so nothing is deallocated and the metrics and the counters are unchanged. -/
theorem market_data_buffer_pairing (P : Pools) (refresh latency : Int) (data : marketData)
    (s : tradingManager) (hrun : s.m_status = Status.RUNNING) :
    (P.allocateQuoteBuffer s.calls ≠ nullptr →
      (handleMarketData P refresh latency data s).calls = s.calls ++
        [PoolCall.allocateQuoteBuffer (P.allocateQuoteBuffer s.calls),
          PoolCall.deallocateBuffer (P.allocateQuoteBuffer s.calls)
            (P.quote_size * P.buffer_capacity)]) ∧
    (P.allocateQuoteBuffer s.calls = nullptr →
      handleMarketData P refresh latency data s
        = { s with calls := s.calls ++ [PoolCall.allocateQuoteBuffer nullptr] }) := by
  unfold handleMarketData
  rw [if_neg (by simp [hrun])]
  refine ⟨fun hb => ?_, fun hb => ?_⟩
  · simp only [hb, if_false]
    unfold updateOrderBook
    by_cases hsym : data.symbol = ""
    · simp [hsym, tradingManager.call]
    · simp [hsym, tradingManager.call, updateMetrics]
  · simp [hb, tradingManager.call]

/-- Witness of C17: an event with an empty symbol on a freshly started manager; the
buffer 1 is allocated and deallocated once with size 64 * 1024, and with an exhausted
pool nothing is deallocated. -/
theorem market_data_buffer_pairing_witness :
    runningManager.m_status = Status.RUNNING ∧
    (handleMarketData idealPools 2 3 ⟨""⟩ runningManager).calls =
      [PoolCall.allocateQuoteBuffer 1, PoolCall.deallocateBuffer 1 (64 * 1024)] ∧
    handleMarketData noBufferPools 2 3 ⟨""⟩ runningManager
      = { runningManager with calls := [PoolCall.allocateQuoteBuffer nullptr] } :=
  ⟨rfl, (market_data_buffer_pairing idealPools 2 3 ⟨""⟩ runningManager rfl).1 (by decide),
    (market_data_buffer_pairing noBufferPools 2 3 ⟨""⟩ runningManager rfl).2 rfl⟩

/-! ### Forced rollback on stop (C13) -/

/-- The loop of `stop` rolls back and ends the node of each entry in turn. -/
theorem stopLoop_spec (P : Pools) (m : ThreadTransactions) (calls : List PoolCall) :
    ∃ results : List Bool, results.length = m.length ∧
      stopLoop P m calls = calls ++ forcedCalls (m.map Prod.snd) results := by
  induction m generalizing calls with
  | nil => exact ⟨[], rfl, by simp [stopLoop, forcedCalls]⟩
  | cons e rest ih =>
    obtain ⟨results, hlen, hcalls⟩ := ih (rollbackAndEnd P calls e.2)
    refine ⟨P.rollbackTransaction calls e.2 :: results, by simp [hlen], ?_⟩
    have hstep : stopLoop P (e :: rest) calls = stopLoop P rest (rollbackAndEnd P calls e.2) := rfl
    rw [hstep, hcalls]
    simp [rollbackAndEnd, forcedCalls]

/-- The forced calls end a node as many times as it occurs in the list. -/
theorem endCount_forcedCalls (node : Ptr) (nodes : List Ptr) (results : List Bool)
    (hlen : results.length = nodes.length) :
    endCount node (forcedCalls nodes results) = nodes.count node := by
  induction nodes generalizing results with
  | nil => cases results <;> simp [forcedCalls, endCount]
  | cons n rest ih =>
    cases results with
    | nil => simp at hlen
    | cons r results =>
      have hrest := ih results (by simpa using hlen)
      simp only [endCount] at hrest ⊢
      simp only [forcedCalls, List.count_cons, hrest]
      by_cases h : n = node
      · simp [h]
      · have h2 : ¬ node = n := fun e => h e.symm
        simp [h, h2]

/-- C13: `stop()` on a RUNNING or PAUSED manager asks the transaction pool to roll back and
then to end the node of each entry of the thread-transaction map, in turn and once per
entry (the cleanup it calls finds the map empty and adds no second end), then resets
the order pool; no other node is ended; the pending count is 0. When the nodes of the
map are distinct each of them is ended exactly once. -/
theorem stop_forces_rollback (P : Pools) (s : tradingManager)
    (hstatus : s.m_status = Status.RUNNING ∨ s.m_status = Status.PAUSED) :
    ∃ results : List Bool, results.length = s.m_thread_transactions.length ∧
      (stop P s).2.calls = s.calls ++
        forcedCalls (s.m_thread_transactions.map Prod.snd) results ++ [PoolCall.resetOrders] ∧
      (∀ node, endCount node (stop P s).2.calls
        = endCount node s.calls + (s.m_thread_transactions.map Prod.snd).count node) ∧
      ((s.m_thread_transactions.map Prod.snd).Nodup →
        ∀ node ∈ s.m_thread_transactions.map Prod.snd,
          endCount node (stop P s).2.calls = endCount node s.calls + 1) ∧
      (∀ node, node ∉ s.m_thread_transactions.map Prod.snd →
        endCount node (stop P s).2.calls = endCount node s.calls) ∧
      (stop P s).2.m_pending_transactions = 0 := by
  obtain ⟨results, hlen, hloop⟩ := stopLoop_spec P s.m_thread_transactions s.calls
  have hguard : ¬ (s.m_status ≠ Status.RUNNING ∧ s.m_status ≠ Status.PAUSED) := by
    rintro ⟨h1, h2⟩
    rcases hstatus with h | h
    · exact h1 h
    · exact h2 h
  have hcalls : (stop P s).2.calls = s.calls ++
      forcedCalls (s.m_thread_transactions.map Prod.snd) results ++ [PoolCall.resetOrders] := by
    rw [stop_eq, if_neg hguard, ← hloop]
  have hpending : (stop P s).2.m_pending_transactions = 0 := by
    rw [stop_eq, if_neg hguard]
  have hcount : ∀ node, endCount node (stop P s).2.calls
      = endCount node s.calls + (s.m_thread_transactions.map Prod.snd).count node := by
    intro node
    have h := endCount_forcedCalls node (s.m_thread_transactions.map Prod.snd) results
      (by simpa using hlen)
    rw [hcalls]
    simp only [endCount] at h ⊢
    simp [List.count_append, h]
  refine ⟨results, hlen, hcalls, hcount, fun hnodup node hmem => ?_, fun node hnot => ?_,
    hpending⟩
  · rw [hcount node, List.count_eq_one_of_mem hnodup hmem]
  · rw [hcount node, List.count_eq_zero_of_not_mem hnot, Nat.add_zero]

/-- Witness of C13: scenario 6 of the specification. Thread 7 holds the uncommitted node 1
when `stop()` is called: the node is rolled back and ended once, and the pending count
is 0. -/
theorem stop_forces_rollback_witness :
    (busyManager.m_status = Status.RUNNING ∨ busyManager.m_status = Status.PAUSED) ∧
    (stop idealPools busyManager).2.calls =
      [PoolCall.beginTransaction 1, PoolCall.registerTransaction ⟨0, 7⟩ 1,
        PoolCall.rollbackTransaction 1 true, PoolCall.endTransaction 1, PoolCall.resetOrders] ∧
    endCount 1 (stop idealPools busyManager).2.calls = 1 ∧
    (stop idealPools busyManager).2.m_pending_transactions = 0 := by
  obtain ⟨results, -, -, hcount, -, -, hpending⟩ :=
    stop_forces_rollback idealPools busyManager (Or.inl rfl)
  refine ⟨Or.inl rfl, ?_, ?_, hpending⟩
  · rw [stop_eq]; decide
  · rw [hcount 1]; decide

/-! ### Effects of a failed submission (C15) -/

/-- The effects of a failing `submitOrder` after its transaction was begun: thread `T`
holds the node `n`. -/
theorem submitOrderBody_failure_transactional (P : Pools) (T : ThreadId) (latency : Int) (ord : order)
    (s1 : tradingManager) (n : Ptr) (hsym : ord.symbol ≠ "")
    (hen : s1.m_config.enable_transactions = true)
    (hfind : s1.m_thread_transactions.find T = some n) (hn : n ≠ nullptr)
    (hfail : (submitOrderBody P T latency ord s1).1 = false) :
    ∃ added : List PoolCall,
      (submitOrderBody P T latency ord s1).2.calls = s1.calls ++ added ∧
      ((∀ node, PoolCall.registerOrder ord.order_id node false ∉ added) →
        (submitOrderBody P T latency ord s1).2.m_metrics = s1.m_metrics ∧
        ((∀ node, PoolCall.rollbackTransaction node false ∉ added) →
          (submitOrderBody P T latency ord s1).2.m_pending_transactions
            = s1.m_pending_transactions - 1)) ∧
      ((∃ node, PoolCall.registerOrder ord.order_id node false ∈ added) →
        (submitOrderBody P T latency ord s1).2.m_metrics
          = (updateMetrics (latency : ℚ) s1).m_metrics) := by
  unfold submitOrderBody at hfail ⊢
  simp only at hfail ⊢
  by_cases hq : P.allocateOrder s1.calls = nullptr
  · simp only [hq, if_true, call_config, hen] at hfail ⊢
    rw [rollbackTransaction_found P T (s1.call (PoolCall.allocateOrder nullptr)) n hfind hn]
    cases hr : P.rollbackTransaction (s1.call (PoolCall.allocateOrder nullptr)).calls n
    · simp [tradingManager.call]
    · simp [tradingManager.call]
  · simp only [hq, if_false] at hfail ⊢
    generalize hs3 : (s1.call (PoolCall.allocateOrder (P.allocateOrder s1.calls))).call
      (PoolCall.writeOrder (P.allocateOrder s1.calls) ord.price ord.quantity) = s3 at hfail ⊢
    have hs3c : s3.calls = s1.calls ++ [PoolCall.allocateOrder (P.allocateOrder s1.calls),
        PoolCall.writeOrder (P.allocateOrder s1.calls) ord.price ord.quantity] := by
      subst hs3; simp [call_calls]
    have hs3m : s3.m_metrics = s1.m_metrics := by subst hs3; rfl
    have hs3p : s3.m_pending_transactions = s1.m_pending_transactions := by subst hs3; rfl
    have hs3f : s3.m_thread_transactions.find T = some n := by subst hs3; exact hfind
    have hs3e : s3.m_config.enable_transactions = true := by subst hs3; exact hen
    have hs3u : (updateMetrics (latency : ℚ) s3).m_metrics
        = (updateMetrics (latency : ℚ) s1).m_metrics := by
      simp [updateMetrics, hs3m]
    clear hs3
    cases hthrew : P.registerOrderThrows s3.calls ord.order_id (P.allocateOrder s1.calls)
    · simp only [hthrew, Bool.false_eq_true, if_false, updateOrderBook, hsym] at hfail ⊢
      generalize hs6 : incrementActiveOrders (updateMetrics (latency : ℚ)
        (s3.call (PoolCall.registerOrder ord.order_id (P.allocateOrder s1.calls) false)))
        = s6 at hfail ⊢
      have hs6c : s6.calls = s1.calls ++ [PoolCall.allocateOrder (P.allocateOrder s1.calls),
          PoolCall.writeOrder (P.allocateOrder s1.calls) ord.price ord.quantity,
          PoolCall.registerOrder ord.order_id (P.allocateOrder s1.calls) false] := by
        subst hs6; simp [incrementActiveOrders, updateMetrics, call_calls, hs3c]
      have hs6m : s6.m_metrics = (updateMetrics (latency : ℚ) s1).m_metrics := by
        subst hs6; exact hs3u
      have hs6f : s6.m_thread_transactions.find T = some n := by subst hs6; exact hs3f
      have hs6e : s6.m_config.enable_transactions = true := by subst hs6; exact hs3e
      clear hs6
      unfold submitOrderCommit at hfail ⊢
      simp only [hs6e, if_true] at hfail ⊢
      obtain ⟨a, -, hca, -, -, -, hma⟩ := commitTransaction_step P T s6
      cases hc : (commitTransaction P T s6).1
      · simp only [hc, Bool.not_false, if_true]
        refine ⟨[PoolCall.allocateOrder (P.allocateOrder s1.calls),
          PoolCall.writeOrder (P.allocateOrder s1.calls) ord.price ord.quantity,
          PoolCall.registerOrder ord.order_id (P.allocateOrder s1.calls) false] ++ a ++
          [PoolCall.deallocateOrder (P.allocateOrder s1.calls)], ?_, fun hno => ?_, fun _ => ?_⟩
        · simp [decrementActiveOrders, call_calls, hca, hs6c]
        · exact absurd (by simp) (hno (P.allocateOrder s1.calls))
        · show (commitTransaction P T s6).2.m_metrics = _
          rw [hma, hs6m]
      · simp [hc] at hfail
    · simp only [hthrew, if_true] at hfail ⊢
      unfold submitOrderCatch
      simp only [call_config, hs3e, if_true]
      rw [rollbackTransaction_found P T ((s3.call (PoolCall.registerOrder ord.order_id
        (P.allocateOrder s1.calls) true)).call
        (PoolCall.deallocateOrder (P.allocateOrder s1.calls))) n hs3f hn]
      cases hr : P.rollbackTransaction ((s3.call (PoolCall.registerOrder ord.order_id
        (P.allocateOrder s1.calls) true)).call
        (PoolCall.deallocateOrder (P.allocateOrder s1.calls))).calls n
      · simp [tradingManager.call, hs3c, hs3m, hs3p]
      · simp [tradingManager.call, hs3c, hs3m, hs3p]

/-- The effects of a failing `submitOrder` without transactions: the failure comes
before the refresh of the order book. -/
theorem submitOrderBody_failure_plain (P : Pools) (T : ThreadId) (latency : Int) (ord : order)
    (s1 : tradingManager) (hsym : ord.symbol ≠ "")
    (hen : s1.m_config.enable_transactions = false)
    (hfail : (submitOrderBody P T latency ord s1).1 = false) :
    ∃ added : List PoolCall,
      (submitOrderBody P T latency ord s1).2.calls = s1.calls ++ added ∧
      (∀ node, PoolCall.registerOrder ord.order_id node false ∉ added) ∧
      (submitOrderBody P T latency ord s1).2.m_metrics = s1.m_metrics ∧
      (submitOrderBody P T latency ord s1).2.m_pending_transactions
        = s1.m_pending_transactions := by
  unfold submitOrderBody at hfail ⊢
  simp only at hfail ⊢
  by_cases hq : P.allocateOrder s1.calls = nullptr
  · simp only [hq, if_true, call_config, hen, Bool.false_eq_true, if_false] at hfail ⊢
    exact ⟨[PoolCall.allocateOrder nullptr], rfl, by simp, rfl, rfl⟩
  · simp only [hq, if_false] at hfail ⊢
    cases hthrew : P.registerOrderThrows ((s1.call (PoolCall.allocateOrder
      (P.allocateOrder s1.calls))).call (PoolCall.writeOrder (P.allocateOrder s1.calls)
      ord.price ord.quantity)).calls ord.order_id (P.allocateOrder s1.calls)
    · simp only [hthrew, Bool.false_eq_true, if_false, updateOrderBook, hsym] at hfail
      have hcfg : (incrementActiveOrders (updateMetrics (latency : ℚ)
          (((s1.call (PoolCall.allocateOrder (P.allocateOrder s1.calls))).call
            (PoolCall.writeOrder (P.allocateOrder s1.calls) ord.price ord.quantity)).call
            (PoolCall.registerOrder ord.order_id (P.allocateOrder s1.calls)
              false)))).m_config.enable_transactions = false := hen
      simp [submitOrderCommit, hcfg] at hfail
    · simp only [hthrew, if_true]
      unfold submitOrderCatch
      simp only [call_config, hen, Bool.false_eq_true, if_false]
      exact ⟨[PoolCall.allocateOrder (P.allocateOrder s1.calls),
        PoolCall.writeOrder (P.allocateOrder s1.calls) ord.price ord.quantity,
        PoolCall.registerOrder ord.order_id (P.allocateOrder s1.calls) true,
        PoolCall.deallocateOrder (P.allocateOrder s1.calls)],
        by simp [call_calls], by simp, rfl, rfl⟩

/-- A failed `beginTransaction` leaves the state as it was, but for a failed request of
a node in the history. -/
theorem beginTransaction_cases (P : Pools) (T : ThreadId) (s : tradingManager) :
    ((beginTransaction P T s).1 = false ∧
      ((beginTransaction P T s).2 = s ∨
        (beginTransaction P T s).2 = s.call (PoolCall.beginTransaction nullptr))) ∨
    ((beginTransaction P T s).1 = true ∧ s.m_status = Status.RUNNING ∧
      s.m_thread_transactions.find T = none ∧ P.beginTransaction s.calls ≠ nullptr) := by
  by_cases hrun : s.m_status = Status.RUNNING
  · cases hf : s.m_thread_transactions.find T with
    | some node =>
      left
      rw [beginTransaction_busy P T s (by simp [hf])]
      exact ⟨rfl, Or.inl rfl⟩
    | none =>
      by_cases hnode : P.beginTransaction s.calls = nullptr
      · left
        simp [beginTransaction, hrun, hf, hnode]
      · right
        rw [beginTransaction_success P T s hrun hf hnode]
        exact ⟨rfl, hrun, rfl, hnode⟩
  · left
    simp [beginTransaction, hrun]

/-- The effects of a `submitOrder` that returns false, read off the calls `added` to the
history. Unless `registerOrder` returned normally the metrics are those before the call,
and so is the pending count unless the pool refused a rollback. When `registerOrder`
returned normally the failure is that of the commit, and the metrics are those left by
the refresh of the order book. -/
theorem submitOrder_failure_effects (P : Pools) (T : ThreadId) (latency : Int) (ord : order)
    (s : tradingManager) (hfail : (submitOrder P T latency ord s).1 = false) :
    ∃ added : List PoolCall,
      (submitOrder P T latency ord s).2.calls = s.calls ++ added ∧
      ((∀ node, PoolCall.registerOrder ord.order_id node false ∉ added) →
        (submitOrder P T latency ord s).2.m_metrics = s.m_metrics ∧
        ((∀ node, PoolCall.rollbackTransaction node false ∉ added) →
          (submitOrder P T latency ord s).2.m_pending_transactions
            = s.m_pending_transactions)) ∧
      ((∃ node, PoolCall.registerOrder ord.order_id node false ∈ added) →
        (submitOrder P T latency ord s).2.m_metrics
          = (updateMetrics (latency : ℚ) s).m_metrics) := by
  have hsame : ∃ added : List PoolCall,
      s.calls = s.calls ++ added ∧
      ((∀ node, PoolCall.registerOrder ord.order_id node false ∉ added) →
        s.m_metrics = s.m_metrics ∧
        ((∀ node, PoolCall.rollbackTransaction node false ∉ added) →
          s.m_pending_transactions = s.m_pending_transactions)) ∧
      ((∃ node, PoolCall.registerOrder ord.order_id node false ∈ added) →
        s.m_metrics = (updateMetrics (latency : ℚ) s).m_metrics) :=
    ⟨[], by simp, fun _ => ⟨rfl, fun _ => rfl⟩, fun ⟨_, h⟩ => absurd h (by simp)⟩
  unfold submitOrder at hfail ⊢
  by_cases h1 : s.m_status ≠ Status.RUNNING
  · rw [if_pos h1]; exact hsame
  rw [if_neg h1] at hfail ⊢
  by_cases h2 : (!validateOrder ord) = true
  · rw [if_pos h2]; exact hsame
  rw [if_neg h2] at hfail ⊢
  have hsym : ord.symbol ≠ "" := ((validateOrder_iff ord).1 (by simpa using h2)).2.1
  simp only at hfail ⊢
  cases hen : s.m_config.enable_transactions
  · simp only [hen, Bool.false_eq_true, if_false, Bool.not_true] at hfail ⊢
    obtain ⟨added, hc, hno, hm, hp⟩ := submitOrderBody_failure_plain P T latency ord s hsym hen hfail
    exact ⟨added, hc, fun _ => ⟨hm, fun _ => hp⟩, fun ⟨node, h⟩ => absurd h (hno node)⟩
  · simp only [hen, if_true] at hfail ⊢
    rcases beginTransaction_cases P T s with ⟨hb, hstate⟩ | ⟨hb, hrun, hfree, hnode⟩
    · simp only [hb, Bool.not_false, if_true]
      rcases hstate with h | h
      · rw [h]; exact hsame
      · rw [h]
        exact ⟨[PoolCall.beginTransaction nullptr], rfl, fun _ => ⟨rfl, fun _ => rfl⟩,
          fun ⟨_, hmem⟩ => absurd hmem (by simp)⟩
    · rw [beginTransaction_success P T s hrun hfree hnode] at hfail ⊢
      simp only [Bool.not_true, Bool.false_eq_true, if_false] at hfail ⊢
      obtain ⟨added, hc, hpre, hpost⟩ := submitOrderBody_failure_transactional P T latency ord
        { s with
          calls := historyAfterBegin P T s
          m_thread_transactions := s.m_thread_transactions.assign T (P.beginTransaction s.calls)
          m_pending_transactions := s.m_pending_transactions + 1 }
        (P.beginTransaction s.calls) hsym hen (find_assign_self _ _ _) hnode hfail
      refine ⟨[PoolCall.beginTransaction (P.beginTransaction s.calls),
        PoolCall.registerTransaction ⟨s.m_pending_transactions, T⟩ (P.beginTransaction s.calls)]
        ++ added, ?_, fun hno => ?_, fun ⟨node, hmem⟩ => ?_⟩
      · rw [hc]; simp [historyAfterBegin]
      · have hno2 : ∀ node, PoolCall.registerOrder ord.order_id node false ∉ added :=
          fun node hmem => hno node (List.mem_append_right _ hmem)
        refine ⟨(hpre hno2).1, fun hnr => ?_⟩
        have hnr2 : ∀ node, PoolCall.rollbackTransaction node false ∉ added :=
          fun node hmem => hnr node (List.mem_append_right _ hmem)
        rw [(hpre hno2).2 hnr2]
        exact Nat.add_sub_cancel (s.m_pending_transactions) 1
      · have hmem2 : PoolCall.registerOrder ord.order_id node false ∈ added := by
          rcases List.mem_append.1 hmem with h | h
          · exact absurd h (by simp)
          · exact h
        rw [hpost ⟨node, hmem2⟩]
        simp [updateMetrics]

/-- Counterexample to C15 as stated: the order A1 submitted by thread 7 to a freshly
started manager whose transaction pool refuses the commit. The call returns false, yet
the pending count went from 0 to 1, the order count from 0 to 1 and the average latency
from 0 to the latency 3 of the refresh. -/
theorem failed_commit_leaves_increments :
    (submitOrder refusingPools 7 3 orderA1 runningManager).1 = false ∧
    PoolCall.registerOrder "A1" 3 false
      ∈ (submitOrder refusingPools 7 3 orderA1 runningManager).2.calls ∧
    runningManager.m_pending_transactions = 0 ∧
    (submitOrder refusingPools 7 3 orderA1 runningManager).2.m_pending_transactions = 1 ∧
    runningManager.m_metrics.order_count = 0 ∧
    (submitOrder refusingPools 7 3 orderA1 runningManager).2.m_metrics.order_count = 1 ∧
    runningManager.m_metrics.avg_latency = 0 ∧
    (submitOrder refusingPools 7 3 orderA1 runningManager).2.m_metrics.avg_latency = 3 := by
  refine ⟨by decide, by decide, rfl, by decide, rfl, by decide, rfl, ?_⟩
  obtain ⟨added, hc, -, hpost⟩ :=
    submitOrder_failure_effects refusingPools 7 3 orderA1 runningManager (by decide)
  have hcalls : (submitOrder refusingPools 7 3 orderA1 runningManager).2.calls =
      [PoolCall.beginTransaction 1, PoolCall.registerTransaction ⟨0, 7⟩ 1,
        PoolCall.allocateOrder 3, PoolCall.writeOrder 3 10 5,
        PoolCall.registerOrder "A1" 3 false, PoolCall.commitTransaction 1 false,
        PoolCall.deallocateOrder 3] := by decide
  have hadded : added = [PoolCall.beginTransaction 1, PoolCall.registerTransaction ⟨0, 7⟩ 1,
        PoolCall.allocateOrder 3, PoolCall.writeOrder 3 10 5,
        PoolCall.registerOrder "A1" 3 false, PoolCall.commitTransaction 1 false,
        PoolCall.deallocateOrder 3] := by
    rw [hcalls] at hc
    simpa [runningManager, freshManager] using hc.symm
  rw [hpost ⟨3, by rw [hadded]; decide⟩]
  norm_num [updateMetrics, runningManager, freshManager, resetMetrics]

/-- C15, amended: for every call of `submitOrder` that returns false, with `added` the
allocator calls it made: if `registerOrder` did not return normally (the call was
rejected, or its begin, its allocation or its registration failed), the metrics order
count and the average latency are exactly their values before the call, and so is the
pending count unless the pool refused the rollback of the call's transaction; if
`registerOrder` returned normally (the failure is that of the commit, after the refresh
of the order book), the order count is one more than before and the average latency is
the running mean that includes the latency of the refresh. -/
theorem failed_submission_effects (P : Pools) (T : ThreadId) (latency : Int) (ord : order)
    (s : tradingManager) (hfail : (submitOrder P T latency ord s).1 = false) :
    ∃ added : List PoolCall,
      (submitOrder P T latency ord s).2.calls = s.calls ++ added ∧
      ((∀ node, PoolCall.registerOrder ord.order_id node false ∉ added) →
        (submitOrder P T latency ord s).2.m_metrics.order_count = s.m_metrics.order_count ∧
        (submitOrder P T latency ord s).2.m_metrics.avg_latency = s.m_metrics.avg_latency ∧
        ((∀ node, PoolCall.rollbackTransaction node false ∉ added) →
          (submitOrder P T latency ord s).2.m_pending_transactions
            = s.m_pending_transactions)) ∧
      ((∃ node, PoolCall.registerOrder ord.order_id node false ∈ added) →
        (submitOrder P T latency ord s).2.m_metrics.order_count
          = s.m_metrics.order_count + 1 ∧
        (submitOrder P T latency ord s).2.m_metrics.avg_latency
          = s.m_metrics.avg_latency
            + ((latency : ℚ) - s.m_metrics.avg_latency) / ((s.m_metrics.order_count : ℚ) + 1)) := by
  obtain ⟨added, hc, hpre, hpost⟩ := submitOrder_failure_effects P T latency ord s hfail
  refine ⟨added, hc, fun hno => ?_, fun hreg => ?_⟩
  · obtain ⟨hm, hp⟩ := hpre hno
    exact ⟨by rw [hm], by rw [hm], hp⟩
  · rw [hpost hreg]
    exact ⟨rfl, by simp [updateMetrics]⟩

/-- Witness of C15 (amended): the order A1 submitted by thread 7 to a freshly started
manager whose order pool is exhausted. The call returns false after rolling its
transaction back; pending count, order count and average latency are what they were. -/
theorem failed_submission_effects_witness :
    (submitOrder noOrderPools 7 3 orderA1 runningManager).1 = false ∧
    (submitOrder noOrderPools 7 3 orderA1 runningManager).2.calls =
      [PoolCall.beginTransaction 1, PoolCall.registerTransaction ⟨0, 7⟩ 1,
        PoolCall.allocateOrder nullptr, PoolCall.rollbackTransaction 1 true,
        PoolCall.endTransaction 1] ∧
    (submitOrder noOrderPools 7 3 orderA1 runningManager).2.m_metrics.order_count = 0 ∧
    (submitOrder noOrderPools 7 3 orderA1 runningManager).2.m_metrics.avg_latency = 0 ∧
    (submitOrder noOrderPools 7 3 orderA1 runningManager).2.m_pending_transactions = 0 := by
  have hcalls : (submitOrder noOrderPools 7 3 orderA1 runningManager).2.calls =
      [PoolCall.beginTransaction 1, PoolCall.registerTransaction ⟨0, 7⟩ 1,
        PoolCall.allocateOrder nullptr, PoolCall.rollbackTransaction 1 true,
        PoolCall.endTransaction 1] := by decide
  obtain ⟨added, hc, hpre, -⟩ :=
    failed_submission_effects noOrderPools 7 3 orderA1 runningManager (by decide)
  have hadded : added = [PoolCall.beginTransaction 1, PoolCall.registerTransaction ⟨0, 7⟩ 1,
        PoolCall.allocateOrder nullptr, PoolCall.rollbackTransaction 1 true,
        PoolCall.endTransaction 1] := by
    rw [hcalls] at hc
    simpa [runningManager, freshManager] using hc.symm
  have h := hpre (by rw [hadded]; simp)
  exact ⟨by decide, hcalls, h.1, h.2.1, h.2.2 (by rw [hadded]; simp)⟩

/-! ### Cancellation (C16) -/

/-- C16, the code at the failing inputs: in a freshly started manager with transactions
enabled, `cancelOrder` by thread 7 returns true although the begin of its transaction
failed (the transaction pool is exhausted), and returns true although the commit of its
transaction failed (the pool refuses the commit). -/
theorem cancelOrder_ignores_transaction_failure :
    runningManager.m_status = Status.RUNNING ∧
    runningManager.m_config.enable_transactions = true ∧
    (beginTransaction exhaustedPools 7 runningManager).1 = false ∧
    (cancelOrder exhaustedPools 7 3 "A1" runningManager).1 = true ∧
    (beginTransaction refusingPools 7 runningManager).1 = true ∧
    (commitTransaction refusingPools 7 (beginTransaction refusingPools 7 runningManager).2).1
      = false ∧
    (cancelOrder refusingPools 7 3 "A1" runningManager).1 = true := by
  decide

/-! ### Concurrent updates of the maximum (C19) -/

theorem callerOk_mono (m m' : ℚ) (c : Caller) (h : callerOk m c) (hle : m ≤ m') :
    callerOk m' c := by
  unfold callerOk at h ⊢
  cases hp : c.phase with
  | load => simp
  | loop current_max => rw [hp] at h; exact le_trans h hle
  | returned => rw [hp] at h; exact le_trans h hle

/-- One step of a caller never lowers the stored maximum, stores nothing but the old
value or the latency of the caller, and keeps what the caller knows true. -/
theorem callerStep_spec (spurious : Bool) (m : ℚ) (c : Caller) (hok : callerOk m c) :
    m ≤ (callerStep spurious m c).1 ∧
    callerOk (callerStep spurious m c).1 (callerStep spurious m c).2 ∧
    ((callerStep spurious m c).1 = m ∨ (callerStep spurious m c).1 = c.latency) ∧
    (callerStep spurious m c).2.latency = c.latency := by
  obtain ⟨latency, phase⟩ := c
  cases phase with
  | load => simp [callerStep, callerOk]
  | returned => exact ⟨le_refl _, hok, Or.inl rfl, rfl⟩
  | loop current_max =>
    have hcur : current_max ≤ m := hok
    by_cases hgt : latency > current_max
    · by_cases hm : m = current_max
      · subst hm
        cases spurious
        · simp [callerStep, hgt, casStep, callerOk, le_of_lt hgt]
        · simp [callerStep, hgt, callerOk]
      · simp [callerStep, hgt, hm, casStep, callerOk]
    · have hle : latency ≤ m := le_trans (not_lt.1 hgt) hcur
      simp [callerStep, hgt, callerOk, hle]

/-- One step of the system never lowers the stored maximum, stores nothing but the old
value or the latency of a caller, and keeps what every caller knows true. -/
theorem stepCallers_spec (spurious : Bool) (m : ℚ) (i : Nat) (callers : List Caller)
    (hok : ∀ c ∈ callers, callerOk m c) :
    m ≤ (stepCallers spurious m i callers).1 ∧
    (∀ c ∈ (stepCallers spurious m i callers).2,
      callerOk (stepCallers spurious m i callers).1 c) ∧
    ((stepCallers spurious m i callers).1 = m ∨
      (stepCallers spurious m i callers).1 ∈ callers.map Caller.latency) ∧
    (stepCallers spurious m i callers).2.map Caller.latency = callers.map Caller.latency := by
  induction callers generalizing i with
  | nil => cases i <;> simp [stepCallers]
  | cons c rest ih =>
    have hc : callerOk m c := hok c (List.mem_cons_self _ _)
    have hrest : ∀ d ∈ rest, callerOk m d := fun d hd => hok d (List.mem_cons_of_mem _ hd)
    cases i with
    | zero =>
      obtain ⟨h1, h2, h3, h4⟩ := callerStep_spec spurious m c hc
      simp only [stepCallers]
      refine ⟨h1, fun d hd => ?_, ?_, by simp [h4]⟩
      · rcases List.mem_cons.1 hd with h | h
        · rw [h]; exact h2
        · exact callerOk_mono m _ d (hrest d h) h1
      · rcases h3 with h | h
        · exact Or.inl h
        · exact Or.inr (by simp [h])
    | succ i =>
      obtain ⟨h1, h2, h3, h4⟩ := ih i hrest
      simp only [stepCallers]
      refine ⟨h1, fun d hd => ?_, ?_, by simp [h4]⟩
      · rcases List.mem_cons.1 hd with h | h
        · rw [h]; exact callerOk_mono m _ c hc h1
        · exact h2 d h
      · rcases h3 with h | h
        · exact Or.inl h
        · exact Or.inr (List.mem_cons_of_mem _ h)

/-- Along a run the stored maximum does not decrease, stays the initial value or one of
the latencies, and every caller keeps knowing a lower bound of it. -/
theorem runSchedule_spec (m0 : ℚ) (latencies : List ℚ) (schedule : List (Nat × Bool))
    (σ : Shared) (hm0 : m0 ≤ σ.m_max_latency)
    (hval : σ.m_max_latency = m0 ∨ σ.m_max_latency ∈ latencies)
    (hlat : σ.callers.map Caller.latency = latencies)
    (hok : ∀ c ∈ σ.callers, callerOk σ.m_max_latency c) :
    σ.m_max_latency ≤ (runSchedule schedule σ).m_max_latency ∧
    ((runSchedule schedule σ).m_max_latency = m0 ∨
      (runSchedule schedule σ).m_max_latency ∈ latencies) ∧
    (runSchedule schedule σ).callers.map Caller.latency = latencies ∧
    (∀ c ∈ (runSchedule schedule σ).callers,
      callerOk (runSchedule schedule σ).m_max_latency c) := by
  induction schedule generalizing σ with
  | nil => exact ⟨le_refl _, hval, hlat, hok⟩
  | cons move rest ih =>
    obtain ⟨h1, h2, h3, h4⟩ := stepCallers_spec move.2 σ.m_max_latency move.1 σ.callers hok
    have hnext := ih (sharedStep σ move) (le_trans hm0 h1)
      (by
        rcases h3 with h | h
        · rcases hval with hv | hv
          · exact Or.inl (h.trans hv)
          · exact Or.inr (by rw [show (sharedStep σ move).m_max_latency = σ.m_max_latency from h]
                             exact hv)
        · exact Or.inr (hlat ▸ h))
      (h4.trans hlat) h2
    exact ⟨le_trans h1 hnext.1, hnext.2⟩

theorem runSchedule_append (first second : List (Nat × Bool)) (σ : Shared) :
    runSchedule (first ++ second) σ = runSchedule second (runSchedule first σ) := by
  simp [runSchedule, List.foldl_append]

theorem le_foldr_max_init (a : ℚ) (L : List ℚ) : a ≤ L.foldr max a := by
  induction L with
  | nil => exact le_refl _
  | cons l rest ih => exact le_max_of_le_right ih

theorem le_foldr_max_mem (a : ℚ) (L : List ℚ) (l : ℚ) (h : l ∈ L) : l ≤ L.foldr max a := by
  induction L with
  | nil => simp at h
  | cons x rest ih =>
    rcases List.mem_cons.1 h with hx | hx
    · rw [hx]; exact le_max_left _ _
    · exact le_max_of_le_right (ih hx)

theorem foldr_max_le (a x : ℚ) (L : List ℚ) (ha : a ≤ x) (hL : ∀ l ∈ L, l ≤ x) :
    L.foldr max a ≤ x := by
  induction L with
  | nil => exact ha
  | cons l rest ih =>
    exact max_le (hL l (List.mem_cons_self _ _))
      (ih (fun k hk => hL k (List.mem_cons_of_mem _ hk)))

/-- C19: `N` threads call `updateMetrics` concurrently with latencies `L1..LN`, the stored
max latency being `m` when they enter. Under every interleaving of their atomic
operations on `m_max_latency` (the load and the exchanges of the retry loop, spurious
failures of the weak exchange included) the stored value never decreases from one
moment of the run to a later one, and once every call has left the loop it is the
maximum of `m` and `L1..LN`. -/
theorem concurrent_max_race_free (m : ℚ) (latencies : List ℚ) (schedule : List (Nat × Bool)) :
    (∀ first second, schedule = first ++ second →
      (runSchedule first (enterAll m latencies)).m_max_latency
        ≤ (runSchedule schedule (enterAll m latencies)).m_max_latency) ∧
    ((∀ c ∈ (runSchedule schedule (enterAll m latencies)).callers, c.phase = Phase.returned) →
      (runSchedule schedule (enterAll m latencies)).m_max_latency = latencies.foldr max m ∧
      m ≤ (runSchedule schedule (enterAll m latencies)).m_max_latency ∧
      ∀ l ∈ latencies, l ≤ (runSchedule schedule (enterAll m latencies)).m_max_latency) := by
  have hinit : ∀ c ∈ (enterAll m latencies).callers, callerOk m c := by
    intro c hc
    simp only [enterAll, List.mem_map] at hc
    obtain ⟨l, -, rfl⟩ := hc
    simp [callerOk]
  have hlat0 : (enterAll m latencies).callers.map Caller.latency = latencies := by
    simp [enterAll, Function.comp_def]
  have hrun : ∀ sch : List (Nat × Bool),
      m ≤ (runSchedule sch (enterAll m latencies)).m_max_latency ∧
      ((runSchedule sch (enterAll m latencies)).m_max_latency = m ∨
        (runSchedule sch (enterAll m latencies)).m_max_latency ∈ latencies) ∧
      (runSchedule sch (enterAll m latencies)).callers.map Caller.latency = latencies ∧
      (∀ c ∈ (runSchedule sch (enterAll m latencies)).callers,
        callerOk (runSchedule sch (enterAll m latencies)).m_max_latency c) :=
    fun sch => runSchedule_spec m latencies sch (enterAll m latencies) (le_refl _) (Or.inl rfl)
      hlat0 hinit
  refine ⟨fun first second hsplit => ?_, fun hdone => ?_⟩
  · obtain ⟨h1, h2, h3, h4⟩ := hrun first
    rw [hsplit, runSchedule_append]
    exact (runSchedule_spec m latencies second _ h1 h2 h3 h4).1
  · obtain ⟨h1, h2, h3, h4⟩ := hrun schedule
    have hall : ∀ l ∈ latencies,
        l ≤ (runSchedule schedule (enterAll m latencies)).m_max_latency := by
      intro l hl
      rw [← h3] at hl
      obtain ⟨c, hc, rfl⟩ := List.mem_map.1 hl
      have hok := h4 c hc
      unfold callerOk at hok
      rw [hdone c hc] at hok
      exact hok
    refine ⟨le_antisymm (a := (runSchedule schedule (enterAll m latencies)).m_max_latency) ?_
      (foldr_max_le m _ latencies h1 hall), h1, hall⟩
    rcases h2 with h | h
    · rw [h]; exact le_foldr_max_init m latencies
    · exact le_foldr_max_mem m latencies _ h

/-- Witness of C19: two threads record the latencies 9 and 12 concurrently while the max
latency is 5; under `raceSchedule` both leave the loop and the max latency is 12, having
been 9 after the first four steps. -/
theorem concurrent_max_race_free_witness :
    (∀ c ∈ (runSchedule raceSchedule (enterAll 5 [9, 12])).callers, c.phase = Phase.returned) ∧
    (runSchedule (raceSchedule.take 4) (enterAll 5 [9, 12])).m_max_latency = 9 ∧
    (runSchedule raceSchedule (enterAll 5 [9, 12])).m_max_latency = 12 := by
  have h := (concurrent_max_race_free 5 [9, 12] raceSchedule).2 (by decide)
  refine ⟨by decide, by decide, ?_⟩
  rw [h.1]
  norm_num

/-! ### Cancellation while a transaction is open (C21) -/

/-- What `cancelOrder` computes in a RUNNING manager with transactions enabled when the
calling thread already has an entry: its begin changes nothing, so its commit acts on
the entry that was there. -/
theorem cancelOrder_busy (P : Pools) (T : ThreadId) (latency : Int) (order_id : String)
    (s : tradingManager) (hrun : s.m_status = Status.RUNNING)
    (henable : s.m_config.enable_transactions = true)
    (hbusy : s.m_thread_transactions.find T ≠ none) :
    cancelOrder P T latency order_id s
      = (true, updateMetrics (latency : ℚ) (commitTransaction P T s).2) := by
  unfold cancelOrder
  rw [if_neg (by simp [hrun])]
  simp only [henable, if_true, beginTransaction_busy P T s hbusy]

/-- Counterexample to C21 as stated: thread 7 holds the PENDING node 1 in a RUNNING manager
with transactions enabled and the pool refuses the commit. `cancelOrder` returns true
and the entry of thread 7 is gone, but the transaction is neither committed nor ended
and the pending count is still 1. -/
theorem cancelOrder_refused_commit :
    busyManager.m_status = Status.RUNNING ∧
    busyManager.m_config.enable_transactions = true ∧
    busyManager.m_thread_transactions.find 7 = some 1 ∧
    refusingPools.status busyManager.calls 1 = transactionStatus.PENDING ∧
    (cancelOrder refusingPools 7 3 "A1" busyManager).1 = true ∧
    (cancelOrder refusingPools 7 3 "A1" busyManager).2.m_thread_transactions.find 7 = none ∧
    (cancelOrder refusingPools 7 3 "A1" busyManager).2.calls
      = busyManager.calls ++ [PoolCall.commitTransaction 1 false] ∧
    endCount 1 (cancelOrder refusingPools 7 3 "A1" busyManager).2.calls = 0 ∧
    busyManager.m_pending_transactions = 1 ∧
    (cancelOrder refusingPools 7 3 "A1" busyManager).2.m_pending_transactions = 1 := by
  decide

/-- C21, amended: in a RUNNING manager with transactions enabled in which the calling
thread `T` already holds a PENDING transaction, the begin of `cancelOrder` fails and
changes nothing, its commit removes the entry of `T` from the thread-transaction map and
asks the pool to commit the transaction that `T` held, and `cancelOrder` returns true;
when the pool's commit returns true, that transaction is committed and ended and the
pending count drops by one (without going below zero). -/
theorem cancelOrder_consumes_transaction (P : Pools) (T : ThreadId) (latency : Int)
    (order_id : String) (s : tradingManager) (node : Ptr)
    (hrun : s.m_status = Status.RUNNING)
    (henable : s.m_config.enable_transactions = true)
    (hfind : s.m_thread_transactions.find T = some node) (hnode : node ≠ nullptr)
    (hpending : P.status s.calls node = transactionStatus.PENDING) :
    beginTransaction P T s = (false, s) ∧
    (cancelOrder P T latency order_id s).1 = true ∧
    (cancelOrder P T latency order_id s).2.m_thread_transactions
      = s.m_thread_transactions.erase T ∧
    (cancelOrder P T latency order_id s).2.m_thread_transactions.find T = none ∧
    (∃ rest, (cancelOrder P T latency order_id s).2.calls = s.calls ++
      PoolCall.commitTransaction node (P.commitTransaction s.calls node) :: rest) ∧
    (P.commitTransaction s.calls node = true →
      (cancelOrder P T latency order_id s).2.calls
        = s.calls ++ [PoolCall.commitTransaction node true, PoolCall.endTransaction node] ∧
      (cancelOrder P T latency order_id s).2.m_pending_transactions
        = s.m_pending_transactions - 1 ∧
      (0 < s.m_pending_transactions →
        (cancelOrder P T latency order_id s).2.m_pending_transactions + 1
          = s.m_pending_transactions)) := by
  have hbusy : s.m_thread_transactions.find T ≠ none := by simp [hfind]
  rw [cancelOrder_busy P T latency order_id s hrun henable hbusy,
    commitTransaction_pending P T s node hfind hnode hpending]
  refine ⟨beginTransaction_busy P T s hbusy, rfl, ?_, ?_, ?_, fun hok => ?_⟩
  · cases hok : P.commitTransaction s.calls node <;> simp [updateMetrics]
  · cases hok : P.commitTransaction s.calls node <;> simp [updateMetrics, find_erase_self]
  · cases hok : P.commitTransaction s.calls node <;> simp [updateMetrics]
  · simp only [hok, if_true]
    refine ⟨rfl, rfl, fun hpos => ?_⟩
    show s.m_pending_transactions - 1 + 1 = s.m_pending_transactions
    omega

/-- Witness of C21 (amended): thread 7 holds the PENDING node 1 and calls `cancelOrder` on
pools that accept the commit; its transaction is committed and ended, its entry is
gone, the pending count goes from 1 to 0 and the call returns true. -/
theorem cancelOrder_consumes_transaction_witness :
    busyManager.m_status = Status.RUNNING ∧
    busyManager.m_config.enable_transactions = true ∧
    busyManager.m_thread_transactions.find 7 = some 1 ∧
    idealPools.status busyManager.calls 1 = transactionStatus.PENDING ∧
    beginTransaction idealPools 7 busyManager = (false, busyManager) ∧
    (cancelOrder idealPools 7 3 "A1" busyManager).1 = true ∧
    (cancelOrder idealPools 7 3 "A1" busyManager).2.m_thread_transactions = [] ∧
    (cancelOrder idealPools 7 3 "A1" busyManager).2.calls
      = [PoolCall.beginTransaction 1, PoolCall.registerTransaction ⟨0, 7⟩ 1,
          PoolCall.commitTransaction 1 true, PoolCall.endTransaction 1] ∧
    (cancelOrder idealPools 7 3 "A1" busyManager).2.m_pending_transactions = 0 := by
  have h := cancelOrder_consumes_transaction idealPools 7 3 "A1" busyManager 1 rfl rfl
    (by decide) (by decide) (by decide)
  have h2 := h.2.2.2.2.2 rfl
  exact ⟨rfl, rfl, by decide, by decide, h.1, h.2.1, h.2.2.1.trans (by decide), h2.1, h2.2.1⟩

/-! ### Agreement of the registry with the pending count (C22) -/

theorem isOpen_append (calls added : List PoolCall) (node : Ptr) :
    isOpen (calls ++ added) node = added.foldl (openAfter node) (isOpen calls node) := by
  simp [isOpen, List.foldl_append]

/-- Calls that do not close a node leave it open. -/
theorem foldl_openAfter_keep (node : Ptr) (added : List PoolCall)
    (h : ∀ c ∈ added, openAfter node true c = true) :
    added.foldl (openAfter node) true = true := by
  induction added with
  | nil => rfl
  | cons c rest ih =>
    rw [List.foldl_cons, h c (List.mem_cons_self _ _)]
    exact ih (fun d hd => h d (List.mem_cons_of_mem _ hd))

theorem isOpen_keep (calls added : List PoolCall) (node : Ptr)
    (hopen : isOpen calls node = true) (h : ∀ c ∈ added, openAfter node true c = true) :
    isOpen (calls ++ added) node = true := by
  rw [isOpen_append, hopen]
  exact foldl_openAfter_keep node added h

/-- A call to another allocator than the transaction pool closes no node. -/
theorem openAfter_other (node : Ptr) (c : PoolCall) (h : c.isTransactionCall = false) :
    openAfter node true c = true := by
  cases c <;> simp_all [PoolCall.isTransactionCall, openAfter]

theorem find_some_mem (m : ThreadTransactions) (T : ThreadId) (node : Ptr)
    (h : m.find T = some node) : (T, node) ∈ m := by
  induction m with
  | nil => simp [ThreadTransactions.find] at h
  | cons e rest ih =>
    obtain ⟨U, n⟩ := e
    rw [find_cons] at h
    by_cases hU : U = T
    · rw [if_pos hU] at h
      rw [hU, Option.some.inj h]
      exact List.mem_cons_self _ _
    · rw [if_neg hU] at h
      exact List.mem_cons_of_mem _ (ih h)

theorem find_none_not_mem (m : ThreadTransactions) (T : ThreadId)
    (h : m.find T = none) : T ∉ m.map Prod.fst := by
  induction m with
  | nil => simp
  | cons e rest ih =>
    obtain ⟨U, n⟩ := e
    rw [find_cons] at h
    by_cases hU : U = T
    · rw [if_pos hU] at h; exact absurd h (by simp)
    · rw [if_neg hU] at h
      simp only [List.map_cons, List.mem_cons, not_or]
      exact ⟨fun e => hU e.symm, ih h⟩

theorem mem_erase (m : ThreadTransactions) (T : ThreadId) (e : ThreadId × Ptr) :
    e ∈ m.erase T ↔ e ∈ m ∧ e.1 ≠ T := by
  simp [ThreadTransactions.erase]

theorem erase_of_not_mem (m : ThreadTransactions) (T : ThreadId)
    (h : T ∉ m.map Prod.fst) : m.erase T = m := by
  unfold ThreadTransactions.erase
  rw [List.filter_eq_self]
  intro e he
  have : e.1 ≠ T := fun heq => h (heq ▸ List.mem_map_of_mem Prod.fst he)
  simpa using this

/-- Erasing the entry of a thread that has one removes exactly one entry. -/
theorem length_erase (m : ThreadTransactions) (T : ThreadId)
    (hkeys : (m.map Prod.fst).Nodup) (hmem : T ∈ m.map Prod.fst) :
    (m.erase T).length + 1 = m.length := by
  induction m with
  | nil => simp at hmem
  | cons e rest ih =>
    obtain ⟨U, n⟩ := e
    simp only [List.map_cons, List.nodup_cons] at hkeys
    rw [erase_cons]
    by_cases hU : U = T
    · rw [if_pos hU, erase_of_not_mem rest T (hU ▸ hkeys.1)]
      rfl
    · rw [if_neg hU]
      have hrest : T ∈ rest.map Prod.fst := by
        simp only [List.map_cons, List.mem_cons] at hmem
        rcases hmem with h | h
        · exact absurd h.symm hU
        · exact h
      simp only [List.length_cons]
      rw [ih hkeys.2 hrest]

theorem erase_keys_nodup (m : ThreadTransactions) (T : ThreadId)
    (h : (m.map Prod.fst).Nodup) : ((m.erase T).map Prod.fst).Nodup :=
  h.sublist ((List.filter_sublist m).map Prod.fst)

theorem erase_nodes_nodup (m : ThreadTransactions) (T : ThreadId)
    (h : (m.map Prod.snd).Nodup) : ((m.erase T).map Prod.snd).Nodup :=
  h.sublist ((List.filter_sublist m).map Prod.snd)

/-- In a map without repeated nodes, the entries of other threads hold other nodes. -/
theorem node_ne_of_nodup (m : ThreadTransactions) (T U : ThreadId) (n k : Ptr)
    (hnodes : (m.map Prod.snd).Nodup) (h1 : (T, n) ∈ m) (h2 : (U, k) ∈ m) (hne : U ≠ T) :
    k ≠ n := by
  intro hkn
  have heq := List.inj_on_of_nodup_map hnodes h2 h1 hkn
  exact hne (Prod.mk.inj heq).1

/-- The agreement only looks at the pending count, the map and the history. -/
theorem agreement_of_same (s t : tradingManager) (h : Agreement s)
    (hp : t.m_pending_transactions = s.m_pending_transactions)
    (hm : t.m_thread_transactions = s.m_thread_transactions) (hc : t.calls = s.calls) :
    Agreement t := by
  unfold Agreement at h ⊢
  rw [hp, hm, hc]
  exact h

/-- The agreement survives calls that close no node of the map. -/
theorem agreement_calls (s t : tradingManager) (added : List PoolCall) (h : Agreement s)
    (hp : t.m_pending_transactions = s.m_pending_transactions)
    (hm : t.m_thread_transactions = s.m_thread_transactions)
    (hc : t.calls = s.calls ++ added)
    (hkeep : ∀ e ∈ s.m_thread_transactions, ∀ c ∈ added, openAfter e.2 true c = true) :
    Agreement t := by
  obtain ⟨h1, h2, h3, h4⟩ := h
  unfold Agreement
  rw [hp, hm, hc]
  exact ⟨h1, h2, h3, fun e he =>
    ⟨(h4 e he).1, isOpen_keep s.calls added e.2 (h4 e he).2 (hkeep e he)⟩⟩

/-- The agreement survives a call to another allocator than the transaction pool. -/
theorem agreement_call (s : tradingManager) (c : PoolCall) (h : Agreement s)
    (hc : c.isTransactionCall = false) : Agreement (s.call c) :=
  agreement_calls s (s.call c) [c] h rfl rfl rfl
    (fun e _ d hd => by rw [List.mem_singleton.1 hd]; exact openAfter_other e.2 c hc)

/-- The agreement after a successful begin: the node handed out is not open, so it is
in no entry yet. -/
theorem agreement_begin (T : ThreadId) (n : Ptr) (id : TransactionId) (s t : tradingManager)
    (h : Agreement s) (hfree : s.m_thread_transactions.find T = none) (hn : n ≠ nullptr)
    (hfresh : isOpen s.calls n = false)
    (hp : t.m_pending_transactions = s.m_pending_transactions + 1)
    (hm : t.m_thread_transactions = s.m_thread_transactions.assign T n)
    (hc : t.calls = s.calls ++ [PoolCall.beginTransaction n, PoolCall.registerTransaction id n]) :
    Agreement t := by
  obtain ⟨h1, h2, h3, h4⟩ := h
  have hmap : s.m_thread_transactions.assign T n = (T, n) :: s.m_thread_transactions := by
    unfold ThreadTransactions.assign
    rw [erase_of_find_none _ _ hfree]
  have hnot : n ∉ s.m_thread_transactions.map Prod.snd := by
    intro hmem
    obtain ⟨e, he, hen⟩ := List.mem_map.1 hmem
    have := (h4 e he).2
    rw [hen, hfresh] at this
    exact absurd this (by simp)
  unfold Agreement
  rw [hp, hm, hc, hmap]
  refine ⟨by simp [h1], ?_, ?_, fun e he => ?_⟩
  · simp only [List.map_cons, List.nodup_cons]
    exact ⟨find_none_not_mem _ _ hfree, h2⟩
  · simp only [List.map_cons, List.nodup_cons]
    exact ⟨hnot, h3⟩
  · rcases List.mem_cons.1 he with heq | hrest
    · rw [heq]
      refine ⟨hn, ?_⟩
      simp [isOpen_append, openAfter]
    · refine ⟨(h4 e hrest).1, isOpen_keep _ _ _ (h4 e hrest).2 (fun c hc => ?_)⟩
      simp only [List.mem_cons, List.mem_singleton, List.not_mem_nil, or_false] at hc
      rcases hc with hc | hc <;> rw [hc] <;> simp [openAfter]

/-- The agreement after the entry of `T` was removed and its node `n` closed by the calls
`added`, which concern no other node; the pending count was positive. -/
theorem agreement_close (T : ThreadId) (n : Ptr) (added : List PoolCall)
    (s t : tradingManager) (h : Agreement s)
    (hfind : s.m_thread_transactions.find T = some n)
    (hadded : ∀ c ∈ added, ∀ k, k ≠ n → openAfter k true c = true)
    (hp : t.m_pending_transactions = s.m_pending_transactions - 1)
    (hm : t.m_thread_transactions = s.m_thread_transactions.erase T)
    (hc : t.calls = s.calls ++ added) :
    Agreement t ∧ 0 < s.m_pending_transactions := by
  obtain ⟨h1, h2, h3, h4⟩ := h
  have hmem := find_some_mem _ _ _ hfind
  have hlen := length_erase s.m_thread_transactions T h2
    (List.mem_map.2 ⟨(T, n), hmem, rfl⟩)
  refine ⟨?_, by omega⟩
  unfold Agreement
  rw [hp, hm, hc]
  refine ⟨by omega, erase_keys_nodup _ _ h2, erase_nodes_nodup _ _ h3, fun e he => ?_⟩
  obtain ⟨he1, he2⟩ := (mem_erase _ _ _).1 he
  have hne : e.2 ≠ n := node_ne_of_nodup s.m_thread_transactions T e.1 n e.2 h3 hmem he1 he2
  exact ⟨(h4 e he1).1, isOpen_keep _ _ _ (h4 e he1).2 (fun c hc => hadded c hc e.2 hne)⟩

theorem agreement_beginTransaction (P : Pools) (hP : CooperativePools P) (T : ThreadId)
    (s : tradingManager) (h : Agreement s) : Agreement (beginTransaction P T s).2 := by
  rcases beginTransaction_cases P T s with ⟨-, hs | hs⟩ | ⟨-, hrun, hfree, hnode⟩
  · rw [hs]; exact h
  · rw [hs]
    exact agreement_calls s _ [PoolCall.beginTransaction nullptr] h rfl rfl rfl
      (fun e _ c hc => by rw [List.mem_singleton.1 hc]; simp [openAfter])
  · rw [beginTransaction_success P T s hrun hfree hnode]
    exact agreement_begin T (P.beginTransaction s.calls) ⟨s.m_pending_transactions, T⟩ s _ h
      hfree hnode (hP.1 s.calls hnode) rfl rfl rfl

theorem agreement_commitTransaction (P : Pools) (hP : CooperativePools P) (T : ThreadId)
    (s : tradingManager) (h : Agreement s) : Agreement (commitTransaction P T s).2 := by
  cases hf : s.m_thread_transactions.find T with
  | none =>
    have : commitTransaction P T s = (false, s) := by simp [commitTransaction, hf]
    rw [this]; exact h
  | some n =>
    obtain ⟨hn, hopen⟩ := h.2.2.2 (T, n) (find_some_mem _ _ _ hf)
    obtain ⟨hpending, hcommit, -⟩ := hP.2 s.calls n hn hopen
    rw [commitTransaction_pending P T s n hf hn hpending, if_pos hcommit]
    refine (agreement_close T n [PoolCall.commitTransaction n true, PoolCall.endTransaction n]
      s _ h hf (fun c hc k hk => ?_) rfl rfl rfl).1
    simp only [List.mem_cons, List.mem_singleton, List.not_mem_nil, or_false] at hc
    have hnk : ¬ n = k := fun e => hk e.symm
    rcases hc with hc | hc <;> rw [hc] <;> simp [openAfter, hnk]

theorem agreement_rollbackTransaction (P : Pools) (hP : CooperativePools P) (T : ThreadId)
    (s : tradingManager) (h : Agreement s) : Agreement (rollbackTransaction P T s).2 := by
  cases hf : s.m_thread_transactions.find T with
  | none =>
    have : rollbackTransaction P T s = (false, s) := by simp [rollbackTransaction, hf]
    rw [this]; exact h
  | some n =>
    obtain ⟨hn, hopen⟩ := h.2.2.2 (T, n) (find_some_mem _ _ _ hf)
    obtain ⟨-, -, hrollback⟩ := hP.2 s.calls n hn hopen
    rw [rollbackTransaction_found P T s n hf hn, if_pos hrollback]
    refine (agreement_close T n [PoolCall.rollbackTransaction n true, PoolCall.endTransaction n]
      s _ h hf (fun c hc k hk => ?_) rfl rfl rfl).1
    simp only [List.mem_cons, List.mem_singleton, List.not_mem_nil, or_false] at hc
    have hnk : ¬ n = k := fun e => hk e.symm
    rcases hc with hc | hc <;> rw [hc] <;> simp [openAfter, hnk]

theorem agreement_updateMetrics (latency : ℚ) (s : tradingManager) (h : Agreement s) :
    Agreement (updateMetrics latency s) :=
  agreement_of_same s _ h rfl rfl rfl

theorem agreement_stop (P : Pools) (s : tradingManager) (h : Agreement s) :
    Agreement (stop P s).2 := by
  rw [stop_eq]
  split_ifs
  · exact h
  · exact ⟨rfl, by simp, by simp, fun e he => absurd he (by simp)⟩

theorem agreement_ite (c : Prop) [Decidable c] (a b : tradingManager) (ha : Agreement a)
    (hb : Agreement b) : Agreement (if c then a else b) := by
  split_ifs
  · exact ha
  · exact hb

theorem agreement_cancelOrder (P : Pools) (hP : CooperativePools P) (T : ThreadId)
    (latency : Int) (order_id : String) (s : tradingManager) (h : Agreement s) :
    Agreement (cancelOrder P T latency order_id s).2 := by
  unfold cancelOrder
  by_cases hrun : s.m_status ≠ Status.RUNNING
  · rw [if_pos hrun]; exact h
  · rw [if_neg hrun]
    have h1 : Agreement
        (if s.m_config.enable_transactions = true then (beginTransaction P T s).2 else s) :=
      agreement_ite _ _ _ (agreement_beginTransaction P hP T s h) h
    exact agreement_updateMetrics _ _
      (agreement_ite _ _ _ (agreement_commitTransaction P hP T _ h1) h1)

theorem agreement_handleMarketData (P : Pools) (refresh latency : Int) (data : marketData)
    (s : tradingManager) (h : Agreement s) :
    Agreement (handleMarketData P refresh latency data s) := by
  have h1 : Agreement (s.call (PoolCall.allocateQuoteBuffer (P.allocateQuoteBuffer s.calls))) :=
    agreement_call s _ h rfl
  unfold handleMarketData
  by_cases hrun : s.m_status ≠ Status.RUNNING
  · rw [if_pos hrun]; exact h
  · rw [if_neg hrun]
    refine agreement_ite _ _ _ h1 (agreement_call _ _ ?_ rfl)
    unfold updateOrderBook
    by_cases hsym : data.symbol = ""
    · simp only [hsym, if_true]; exact h1
    · simp only [hsym, if_false]
      exact agreement_updateMetrics _ _ (agreement_updateMetrics _ _ h1)

theorem agreement_submitOrderCatch (P : Pools) (hP : CooperativePools P) (T : ThreadId)
    (node : Ptr) (s : tradingManager) (h : Agreement s) :
    Agreement (submitOrderCatch P T node s).2 := by
  have h1 : Agreement (s.call (PoolCall.deallocateOrder node)) := agreement_call s _ h rfl
  unfold submitOrderCatch
  simp only
  by_cases hen : (s.call (PoolCall.deallocateOrder node)).m_config.enable_transactions = true
  · rw [if_pos hen]; exact agreement_rollbackTransaction P hP T _ h1
  · rw [if_neg hen]; exact h1

theorem agreement_submitOrderCommit (P : Pools) (hP : CooperativePools P) (T : ThreadId)
    (node : Ptr) (s : tradingManager) (h : Agreement s) :
    Agreement (submitOrderCommit P T node s).2 := by
  have h1 := agreement_commitTransaction P hP T s h
  unfold submitOrderCommit
  cases hen : s.m_config.enable_transactions
  · simp only [Bool.false_eq_true, if_false]; exact h
  · simp only [if_true]
    cases hc : (commitTransaction P T s).1
    · simp only [Bool.not_false, if_true]
      exact agreement_of_same _ _ (agreement_call _ (PoolCall.deallocateOrder node) h1 rfl)
        rfl rfl rfl
    · simp only [Bool.not_true, Bool.false_eq_true, if_false]; exact h1

theorem agreement_submitOrderBody (P : Pools) (hP : CooperativePools P) (T : ThreadId)
    (latency : Int) (ord : order) (s : tradingManager) (h : Agreement s) :
    Agreement (submitOrderBody P T latency ord s).2 := by
  have h2 : Agreement (s.call (PoolCall.allocateOrder (P.allocateOrder s.calls))) :=
    agreement_call s _ h rfl
  unfold submitOrderBody
  simp only
  by_cases hq : P.allocateOrder s.calls = nullptr
  · rw [if_pos hq]
    cases hen : (s.call (PoolCall.allocateOrder (P.allocateOrder s.calls))).m_config.enable_transactions
    · simp only [Bool.false_eq_true, if_false]; exact h2
    · simp only [if_true]; exact agreement_rollbackTransaction P hP T _ h2
  · rw [if_neg hq]
    have h3 : Agreement ((s.call (PoolCall.allocateOrder (P.allocateOrder s.calls))).call
        (PoolCall.writeOrder (P.allocateOrder s.calls) ord.price ord.quantity)) :=
      agreement_call _ _ h2 rfl
    generalize (s.call (PoolCall.allocateOrder (P.allocateOrder s.calls))).call
        (PoolCall.writeOrder (P.allocateOrder s.calls) ord.price ord.quantity) = s3 at h3 ⊢
    generalize P.registerOrderThrows s3.calls ord.order_id (P.allocateOrder s.calls) = threw
    have h4 : Agreement (s3.call (PoolCall.registerOrder ord.order_id (P.allocateOrder s.calls)
        threw)) := agreement_call _ _ h3 rfl
    generalize s3.call (PoolCall.registerOrder ord.order_id (P.allocateOrder s.calls) threw)
      = s4 at h4 ⊢
    have hcatch := agreement_submitOrderCatch P hP T (P.allocateOrder s.calls) s4 h4
    cases threw
    · simp only [Bool.false_eq_true, if_false]
      unfold updateOrderBook
      by_cases hsym : ord.symbol = ""
      · simp only [hsym, if_true]; exact hcatch
      · simp only [hsym, if_false]
        exact agreement_submitOrderCommit P hP T _ _
          (agreement_of_same _ (incrementActiveOrders (updateMetrics (latency : ℚ) s4))
            h4 rfl rfl rfl)
    · simp only [if_true]; exact hcatch

theorem agreement_submitOrder (P : Pools) (hP : CooperativePools P) (T : ThreadId)
    (latency : Int) (ord : order) (s : tradingManager) (h : Agreement s) :
    Agreement (submitOrder P T latency ord s).2 := by
  unfold submitOrder
  by_cases h1 : s.m_status ≠ Status.RUNNING
  · rw [if_pos h1]; exact h
  rw [if_neg h1]
  by_cases h2 : (!validateOrder ord) = true
  · rw [if_pos h2]; exact h
  rw [if_neg h2]
  simp only
  have hb : Agreement
      (if s.m_config.enable_transactions = true then beginTransaction P T s else (true, s)).2 := by
    split_ifs
    · exact agreement_beginTransaction P hP T s h
    · exact h
  generalize (if s.m_config.enable_transactions = true then beginTransaction P T s
    else (true, s)) = begun at hb ⊢
  cases hbegun : begun.1
  · simp only [Bool.not_false, if_true]; exact hb
  · simp only [Bool.not_true, Bool.false_eq_true, if_false]
    exact agreement_submitOrderBody P hP T latency ord begun.2 hb

/-- A change of the status alone keeps the agreement. -/
theorem agreement_lifecycle (s t : tradingManager) (h : Agreement s)
    (ht : t = s ∨ ∃ status, t = { s with m_status := status }) : Agreement t := by
  rcases ht with ht | ⟨status, ht⟩
  · rw [ht]; exact h
  · rw [ht]; exact agreement_of_same s _ h rfl rfl rfl

/-- Every call keeps the agreement. -/
theorem agreement_applyOperation (P : Pools) (hP : CooperativePools P) (op : Operation)
    (s : tradingManager) (h : Agreement s) : Agreement (applyOperation P s op) := by
  cases op with
  | start => exact agreement_lifecycle s _ h (by simp only [applyOperation, start]; split_ifs <;> simp)
  | pause => exact agreement_lifecycle s _ h (by simp only [applyOperation, pause]; split_ifs <;> simp)
  | resume => exact agreement_lifecycle s _ h (by simp only [applyOperation, resume]; split_ifs <;> simp)
  | stop => exact agreement_stop P s h
  | beginTransaction T => exact agreement_beginTransaction P hP T s h
  | commitTransaction T => exact agreement_commitTransaction P hP T s h
  | rollbackTransaction T => exact agreement_rollbackTransaction P hP T s h
  | submitOrder T latency ord => exact agreement_submitOrder P hP T latency ord s h
  | cancelOrder T latency order_id => exact agreement_cancelOrder P hP T latency order_id s h
  | handleMarketData refresh latency data =>
    exact agreement_handleMarketData P refresh latency data s h

/-- Every sequence of calls keeps the agreement. -/
theorem agreement_runOperations (P : Pools) (hP : CooperativePools P) (ops : List Operation)
    (s : tradingManager) (h : Agreement s) : Agreement (runOperations P ops s) := by
  induction ops generalizing s with
  | nil => exact h
  | cons op rest ih => exact ih _ (agreement_applyOperation P hP op s h)

/-- A freshly constructed manager has no entry and no pending transaction. -/
theorem agreement_construct (config : Config) (s : tradingManager)
    (h : construct config = some s) : Agreement s := by
  unfold construct at h
  split_ifs at h
  rw [← Option.some.inj h]
  exact ⟨rfl, by simp, by simp, fun e he => absurd he (by simp)⟩

/-- A node that is open was handed out, so it is at most the largest node handed out. -/
theorem open_le_maxBegun (node : Ptr) (calls : List PoolCall) (wasOpen : Bool) (start : Nat)
    (hstart : wasOpen = true → node ≤ start)
    (hopen : calls.foldl (openAfter node) wasOpen = true) :
    node ≤ maxBegun start calls := by
  induction calls generalizing wasOpen start with
  | nil => exact hstart hopen
  | cons c rest ih =>
    rw [List.foldl_cons] at hopen
    cases c with
    | beginTransaction n =>
      have hgoal : node ≤ maxBegun (max start n) rest := by
        refine ih _ _ (fun h => ?_) hopen
        by_cases hn : n = node
        · subst hn; exact le_max_right _ _
        · simp only [openAfter, hn, if_false] at h
          exact le_trans (hstart h) (le_max_left _ _)
      exact hgoal
    | commitTransaction n r =>
      refine ih _ start (fun h => ?_) hopen
      by_cases hn : n = node
      · simp [openAfter, hn] at h
      · simp only [openAfter, hn, if_false] at h; exact hstart h
    | rollbackTransaction n r =>
      refine ih _ start (fun h => ?_) hopen
      by_cases hn : n = node
      · simp [openAfter, hn] at h
      · simp only [openAfter, hn, if_false] at h; exact hstart h
    | endTransaction n =>
      refine ih _ start (fun h => ?_) hopen
      by_cases hn : n = node
      · simp [openAfter, hn] at h
      · simp only [openAfter, hn, if_false] at h; exact hstart h
    | registerTransaction id n => exact ih _ start hstart hopen
    | allocateOrder n => exact ih _ start hstart hopen
    | writeOrder n p q => exact ih _ start hstart hopen
    | registerOrder id n t => exact ih _ start hstart hopen
    | deallocateOrder n => exact ih _ start hstart hopen
    | resetOrders => exact ih _ start hstart hopen
    | allocateQuoteBuffer b => exact ih _ start hstart hopen
    | deallocateBuffer b sz => exact ih _ start hstart hopen

/-- The pools `cooperativePools` satisfy the proviso. -/
theorem cooperativePools_cooperative : CooperativePools cooperativePools := by
  refine ⟨fun calls _ => ?_, fun calls node _ hopen => ?_⟩
  · cases hopen : isOpen calls (cooperativePools.beginTransaction calls)
    · rfl
    · have hle := open_le_maxBegun (maxBegun 0 calls + 1) calls false 0 (by simp) hopen
      exact absurd hle (Nat.not_succ_le_self _)
  · refine ⟨?_, rfl, rfl⟩
    show (if isOpen calls node = true then transactionStatus.PENDING
      else transactionStatus.COMMITTED) = transactionStatus.PENDING
    rw [if_pos hopen]

/-- C22: in every state reached from a freshly constructed manager by a sequence of
`start`, `stop`, `pause`, `resume`, `beginTransaction`, `commitTransaction`,
`rollbackTransaction`, `submitOrder`, `cancelOrder` (and `handleMarketData`) calls by any
threads, each call an atomic step, with a transaction pool that satisfies the proviso
`CooperativePools`: the pending count equals the number of entries of the
thread-transaction map, in which no thread has two entries; and the count is positive
whenever a thread has an entry, so that the decrement of a commit or a rollback never
starts from zero. -/
theorem registry_counter_agreement (P : Pools) (hP : CooperativePools P) (config : Config)
    (s0 : tradingManager) (hs0 : construct config = some s0) (ops : List Operation) :
    (runOperations P ops s0).m_pending_transactions
      = (runOperations P ops s0).m_thread_transactions.length ∧
    ((runOperations P ops s0).m_thread_transactions.map Prod.fst).Nodup ∧
    (∀ T node, (runOperations P ops s0).m_thread_transactions.find T = some node →
      0 < (runOperations P ops s0).m_pending_transactions) := by
  obtain ⟨h1, h2, -, -⟩ := agreement_runOperations P hP ops s0 (agreement_construct config s0 hs0)
  refine ⟨h1, h2, fun T node hfind => ?_⟩
  rw [h1]
  exact List.length_pos_of_mem (find_some_mem _ _ _ hfind)

/-- Witness of C22: the calls of `exampleOperations` on a manager constructed from
`exampleConfig`. After the first three calls the threads 7 and 8 hold the nodes 1 and 2
and the pending count is 2; at the end the map is empty and the count is 0. -/
theorem registry_counter_agreement_witness :
    CooperativePools cooperativePools ∧
    construct exampleConfig = some freshManager ∧
    (runOperations cooperativePools (exampleOperations.take 3) freshManager).m_thread_transactions
      = [(8, 2), (7, 1)] ∧
    (runOperations cooperativePools (exampleOperations.take 3) freshManager).m_pending_transactions
      = 2 ∧
    (runOperations cooperativePools exampleOperations freshManager).m_thread_transactions = [] ∧
    (runOperations cooperativePools exampleOperations freshManager).m_pending_transactions = 0 ∧
    (runOperations cooperativePools exampleOperations freshManager).m_active_orders = 1 := by
  have h3 := registry_counter_agreement cooperativePools cooperativePools_cooperative
    exampleConfig freshManager (by decide) (exampleOperations.take 3)
  have hall := registry_counter_agreement cooperativePools cooperativePools_cooperative
    exampleConfig freshManager (by decide) exampleOperations
  have hm3 : (runOperations cooperativePools (exampleOperations.take 3)
      freshManager).m_thread_transactions = [(8, 2), (7, 1)] := by decide
  have hmall : (runOperations cooperativePools exampleOperations
      freshManager).m_thread_transactions = [] := by decide
  refine ⟨cooperativePools_cooperative, by decide, hm3, ?_, hmall, ?_, by decide⟩
  · rw [h3.1, hm3]; rfl
  · rw [hall.1, hmall]; rfl

end mercuryTrade
